import Mathlib

/-
Verification of the alexacart matching-and-session-resolution engine.

The definitions below are a shallow embedding of the Python source:
  * src/alexacart/matching/matcher.py   (normalize_text, find_match, add_alias,
    add_preferred_product, promote_product, make_product_top_choice)
  * src/alexacart/routes/preferences.py (delete_product route)
  * src/alexacart/routes/order.py       (_search_single_item, _apply_search_results,
    _search_items, _commit_single_item, _learn_from_result, the grouping step of
    _run_order)
  * src/alexacart/models.py             (table shapes)

The preference store for a single grocery item is modelled as a list of rows
(the table, in insertion order; `.first()` on an unordered query returns the
first row in that order) together with an autoincrement counter for primary
keys.  Machine integers do not overflow here (ranks are small); ranks are
modelled as Int because promote_product uses the temporary rank -1.
-/

namespace Alexacart

/-- Embedding of matcher.normalize_text: strip surrounding whitespace,
lowercase (text.strip().lower()).  Implemented over the character list so the
kernel can evaluate it on concrete inputs. -/
def normalize_text (text : String) : String :=
  String.mk
    ((((text.data.dropWhile Char.isWhitespace).reverse.dropWhile
        Char.isWhitespace).reverse).map Char.toLower)

/-- A row of the preferred_products table (models.PreferredProduct) for one
grocery item.  Columns in models.py: id, grocery_item_id, rank, product_name,
product_url, brand, image_url, last_seen_in_stock.  There is no size column.
grocery_item_id is implicit (we model the rows of a single item); the
last_seen_in_stock bookkeeping timestamp is not needed by any claim. -/
structure PreferredProduct where
  pid : Nat
  rank : Int
  product_name : String
  product_url : Option String
  brand : Option String
  image_url : Option String
  deriving Repr, DecidableEq

/-- The preferred_products rows of one grocery item plus the table's
autoincrement counter. -/
structure Store where
  rows : List PreferredProduct
  nextId : Nat
  deriving Repr, DecidableEq

def emptyStore : Store := { rows := [], nextId := 1 }

/-- Query `filter(product_url == url).first()` from matcher.py. -/
def findByUrl (rows : List PreferredProduct) (u : String) : Option PreferredProduct :=
  rows.find? (fun p => p.product_url = some u)

/-- Query `filter(product_name == name).first()` from matcher.py. -/
def findByName (rows : List PreferredProduct) (n : String) : Option PreferredProduct :=
  rows.find? (fun p => p.product_name = n)

/-- Deduplication lookup shared by add_preferred_product (matcher.py 123-142)
and make_product_top_choice (matcher.py 225-244): match by URL first (when a
URL is given), then by name. -/
def dedupFind (s : Store) (product_name : String) (product_url : Option String) :
    Option PreferredProduct :=
  match product_url with
  | some u =>
      match findByUrl s.rows u with
      | some p => some p
      | none => findByName s.rows product_name
  | none => findByName s.rows product_name

/-- Field refresh on a deduplicated existing row (matcher.py 143-151 and
247-254): product_name is always overwritten; url/brand/image only when the
new value is truthy (a present, non-empty string is modelled as some). -/
def updateFields (p : PreferredProduct) (product_name : String)
    (product_url brand image_url : Option String) : PreferredProduct :=
  { p with
    product_name := product_name
    brand := match brand with | some b => some b | none => p.brand
    image_url := match image_url with | some i => some i | none => p.image_url
    product_url := match product_url with | some u => some u | none => p.product_url }

/-- Query `order_by(rank.desc()).first()` over one item's rows: the maximum
rank, or none when the item has no products (matcher.py 154-161). -/
def maxRank : List PreferredProduct → Option Int
  | [] => none
  | p :: ps =>
      match maxRank ps with
      | none => some p.rank
      | some m => some (max p.rank m)

/-- Embedding of matcher.add_preferred_product (matcher.py 108-186).
Dedup-or-create: an existing row (same URL, else same name) is updated in
place; otherwise the rank defaults to max(existing)+1 (1 if none), every row
with rank >= the chosen rank is shifted down by one, and the new row is
inserted with a fresh primary key. -/
def add_preferred_product (s : Store) (product_name : String)
    (product_url brand image_url : Option String) (rank? : Option Int) : Store :=
  match dedupFind s product_name product_url with
  | some existing =>
      { s with rows := s.rows.map (fun q =>
          if q.pid = existing.pid then updateFields q product_name product_url brand image_url
          else q) }
  | none =>
      let r : Int :=
        match rank? with
        | some r => r
        | none =>
            match maxRank s.rows with
            | none => 1
            | some m => m + 1
      let shifted := s.rows.map (fun q =>
        if r ≤ q.rank then { q with rank := q.rank + 1 } else q)
      { rows := shifted ++ [{ pid := s.nextId, rank := r, product_name := product_name,
                              product_url := product_url, brand := brand,
                              image_url := image_url }],
        nextId := s.nextId + 1 }

/-- One UPDATE of the rank of the row with the given primary key. -/
def setRank (rows : List PreferredProduct) (pid : Nat) (r : Int) : List PreferredProduct :=
  rows.map (fun q => if q.pid = pid then { q with rank := r } else q)

/-- Embedding of matcher.promote_product (matcher.py 189-216), exposing the
state after each db.flush().  The product is fetched by primary key; a missing
product or rank <= 1 is a no-op (no flush, empty list).  When a row at
rank-1 exists the swap goes through the temporary rank -1 in three flushed
steps; otherwise the rank is simply decremented. -/
def promoteStates (s : Store) (pid : Nat) : List Store :=
  match s.rows.find? (fun q => q.pid = pid) with
  | none => []
  | some product =>
      if product.rank ≤ 1 then []
      else
        match s.rows.find? (fun q => q.rank = product.rank - 1) with
        | some above =>
            let s1 : Store := { s with rows := setRank s.rows above.pid (-1) }
            let s2 : Store := { s1 with rows := setRank s1.rows product.pid (product.rank - 1) }
            let s3 : Store := { s2 with rows := setRank s2.rows above.pid product.rank }
            [s1, s2, s3]
        | none =>
            [{ s with rows := setRank s.rows product.pid (product.rank - 1) }]

/-- Final state of matcher.promote_product. -/
def promote_product (s : Store) (pid : Nat) : Store :=
  (promoteStates s pid).getLastD s

/-- Embedding of matcher.make_product_top_choice (matcher.py 219-276): match
existing by URL then name; if found, refresh its fields, and unless it is
already rank 1, shift every row with a smaller rank down by one and set this
row's rank to 1; if not found, delegate to add_preferred_product at rank 1. -/
def make_product_top_choice (s : Store) (product_name : String)
    (product_url brand image_url : Option String) : Store :=
  match dedupFind s product_name product_url with
  | some existing =>
      let updated := s.rows.map (fun q =>
        if q.pid = existing.pid then updateFields q product_name product_url brand image_url
        else q)
      if existing.rank = 1 then { s with rows := updated }
      else
        { s with rows := updated.map (fun q =>
            if q.pid = existing.pid then { q with rank := 1 }
            else if q.rank < existing.rank then { q with rank := q.rank + 1 }
            else q) }
  | none => add_preferred_product s product_name product_url brand image_url (some 1)

/-- Reassign ranks i, i+1, ... along a list of rows. -/
def renumberFrom : Int → List PreferredProduct → List PreferredProduct
  | _, [] => []
  | i, p :: ps => { p with rank := i } :: renumberFrom (i + 1) ps

/-- Insertion into a list sorted by ascending rank. -/
def insertByRank (p : PreferredProduct) : List PreferredProduct → List PreferredProduct
  | [] => [p]
  | q :: qs => if p.rank ≤ q.rank then p :: q :: qs else q :: insertByRank p qs

/-- The `order_by(PreferredProduct.rank)` queries: sort rows by ascending rank. -/
def sortByRank : List PreferredProduct → List PreferredProduct
  | [] => []
  | p :: ps => insertByRank p (sortByRank ps)

/-- Embedding of the delete_product route (routes/preferences.py 183-204):
delete the row with the given primary key, then renumber the remaining rows of
that item 1..n in ascending-rank order.  A missing product is a no-op. -/
def delete_product (s : Store) (pid : Nat) : Store :=
  if s.rows.any (fun p => p.pid = pid) then
    { s with rows := renumberFrom 1 (sortByRank (s.rows.filter (fun p => ¬ p.pid = pid))) }
  else s

/-- A row of the aliases table (models.Alias). -/
structure AliasRow where
  aid : Nat
  grocery_item_id : Nat
  atext : String
  deriving Repr, DecidableEq

/-- The aliases table plus its autoincrement counter. -/
structure AliasStore where
  rows : List AliasRow
  nextId : Nat
  deriving Repr, DecidableEq

/-- Embedding of matcher.add_alias (matcher.py 89-105): normalized lookup; an
existing alias of the same item is returned unchanged, an alias of a different
item raises ValueError (modelled as Except.error), otherwise a new row is
inserted. -/
def add_alias (s : AliasStore) (grocery_item_id : Nat) (alias_text : String) :
    Except String (AliasStore × AliasRow) :=
  match s.rows.find? (fun a => a.atext = normalize_text alias_text) with
  | some existing =>
      if existing.grocery_item_id = grocery_item_id then .ok (s, existing)
      else .error ("ValueError: alias already exists for a different item")
  | none =>
      .ok ({ rows := s.rows ++ [{ aid := s.nextId, grocery_item_id := grocery_item_id,
                                   atext := normalize_text alias_text }],
             nextId := s.nextId + 1 },
           { aid := s.nextId, grocery_item_id := grocery_item_id,
             atext := normalize_text alias_text })

/-- A row of the grocery_items table (models.GroceryItem). -/
structure GroceryItem where
  gid : Nat
  name : String
  deriving Repr, DecidableEq

/-- The whole preference database as seen by matcher.find_match: the items and
aliases tables, and the preferred_products table tagged with its
grocery_item_id. -/
structure MatcherDB where
  items : List GroceryItem
  aliases : List AliasRow
  products : List (Nat × PreferredProduct)
  deriving Repr, DecidableEq

/-- Embedding of matcher.MatchResult (matcher.py 16-30). -/
structure MatchResult where
  alexa_text : String
  grocery_item_id : Option Nat
  grocery_item_name : Option String
  preferred_products : List PreferredProduct
  is_known : Bool
  deriving Repr, DecidableEq

/-- The MatchResult.status property (matcher.py 24-30). -/
def MatchResult.status (m : MatchResult) : String :=
  if m.is_known ∧ m.preferred_products ≠ [] then "known"
  else if m.is_known then "known_no_products"
  else "unknown"

/-- The products of one item in ascending rank order (`order_by(rank)`). -/
def productsOf (db : MatcherDB) (gid : Nat) : List PreferredProduct :=
  sortByRank ((db.products.filter (fun pr => pr.1 = gid)).map (fun pr => pr.2))

/-- Embedding of matcher.find_match (matcher.py 38-66): normalize, exact alias
lookup, and on a hit return the item with its rank-ordered products. -/
def find_match (db : MatcherDB) (alexa_text : String) : MatchResult :=
  let normalized := normalize_text alexa_text
  match db.aliases.find? (fun a => a.atext = normalized) with
  | some alias_row =>
      { alexa_text := alexa_text
        grocery_item_id := some alias_row.grocery_item_id
        grocery_item_name :=
          (db.items.find? (fun it => it.gid = alias_row.grocery_item_id)).map (fun it => it.name)
        preferred_products := productsOf db alias_row.grocery_item_id
        is_known := true }
  | none =>
      { alexa_text := alexa_text, grocery_item_id := none, grocery_item_name := none,
        preferred_products := [], is_known := false }

/-- A result from the Instacart catalog (instacart/client.py ProductResult).
Optional strings are none when the client produced None (it maps empty strings
to None). -/
structure ProductResult where
  product_name : String
  product_url : Option String
  brand : Option String
  price : Option String
  image_url : Option String
  in_stock : Bool
  item_id : Option String
  size : Option String
  deriving Repr, DecidableEq

/-- A candidate shown on the review page (routes/order.py ProductOption). -/
structure ProductOption where
  product_name : String
  product_url : Option String
  brand : Option String
  price : Option String
  image_url : Option String
  in_stock : Bool
  item_id : Option String
  size : Option String
  source : Option String
  deriving Repr, DecidableEq

/-- ProductOption built from a general search result (order.py 439-449). -/
def searchToOption (r : ProductResult) : ProductOption :=
  { product_name := r.product_name, product_url := r.product_url, brand := r.brand,
    price := r.price, image_url := r.image_url, in_stock := r.in_stock,
    item_id := r.item_id, size := r.size, source := some "search" }

/-- Embedding of the inner _fetch_pref of _search_single_item (order.py
379-403).  `lookup` is the outcome of the external catalog call (none models
not-found or a raised client error, both of which yield None).  When the
fetched result carries no size, the line `size=result.size or pref.size`
evaluates `pref.size`; the PreferredProduct model has no size column, so this
raises AttributeError, which the surrounding `except Exception` catches,
returning None — the preference is silently dropped. -/
def fetchPref (pref : PreferredProduct) (lookup : Option ProductResult) :
    Option ProductOption :=
  match lookup with
  | none => none
  | some result =>
      match result.size with
      | some sz =>
          some { product_name := result.product_name
                 product_url := match result.product_url with
                   | some u => some u
                   | none => pref.product_url
                 brand := match result.brand with
                   | some b => some b
                   | none => pref.brand
                 price := result.price
                 image_url := match result.image_url with
                   | some i => some i
                   | none => pref.image_url
                 in_stock := result.in_stock
                 item_id := result.item_id
                 size := some sz
                 source := some "preference" }
      | none => none

/-- The pref_ids set of _search_single_item (order.py 421-427): for every
successful preference fetch, its item_id (possibly None) and, when present,
its product_url. -/
def prefIdsOf (prefResults : List (Option ProductOption)) : List (Option String) :=
  (prefResults.filterMap id).flatMap (fun r =>
    [r.item_id] ++ (match r.product_url with | some u => [some u] | none => []))

/-- Resolution outcome recorded on a proposal: its alternatives list and
status classification. -/
structure ResolvedProposal where
  alternatives : List ProductOption
  status : String
  status_class : String
  deriving Repr, DecidableEq

/-- Embedding of the known-item-with-preferences branch of _search_single_item
(order.py 377-474).  `prefLookups` pairs each preferred product (in rank
order) with its catalog lookup outcome; `searchResults` is the general keyword
search outcome (none models the gathered search task having raised).
Preference options keep rank order and in-stock entries only; search options
are in-stock results not already represented among the preference ids; the
combined list decides the Matched / Substituted / No results classification. -/
def search_single_known (prefLookups : List (PreferredProduct × Option ProductResult))
    (searchResults : Option (List ProductResult)) : ResolvedProposal :=
  let prefResults : List (Option ProductOption) :=
    prefLookups.map (fun pr => fetchPref pr.1 pr.2)
  let prefIds := prefIdsOf prefResults
  let prefOptions := (prefResults.filterMap id).filter (fun r => r.in_stock)
  let searchOptions : List ProductOption :=
    match searchResults with
    | some rs =>
        (rs.filter (fun r => r.in_stock && !(prefIds.contains r.item_id) &&
          !(match r.product_url with
            | some u => prefIds.contains (some u)
            | none => false))).map searchToOption
    | none => []
  let allOptions := prefOptions ++ searchOptions
  if allOptions ≠ [] then
    if prefOptions ≠ [] then
      { alternatives := allOptions, status := "Matched", status_class := "matched" }
    else
      { alternatives := allOptions, status := "Substituted", status_class := "substituted" }
  else
    { alternatives := [], status := "No results", status_class := "error" }

/-- Embedding of _apply_search_results (order.py 288-323): keep in-stock
results, take the first as best, or classify "No results". -/
def apply_search_results (searchResults : List ProductResult)
    (status : String) (status_class : String) : ResolvedProposal :=
  let inStock := searchResults.filter (fun r => r.in_stock)
  if inStock ≠ [] then
    { alternatives := inStock.map searchToOption, status := status,
      status_class := status_class }
  else
    { alternatives := [], status := "No results", status_class := "error" }

/-- Embedding of the dispatch of _search_single_item (order.py 377 and
475-483): a known match with preferred products takes the preference branch;
everything else runs the plain search with status "New item".  A raised
search call on the plain path (searchResults = none) propagates to the outer
handler, which stamps the Error status. -/
def search_single_item (m : MatchResult)
    (prefLookups : List (PreferredProduct × Option ProductResult))
    (searchResults : Option (List ProductResult)) : ResolvedProposal :=
  if m.is_known ∧ m.preferred_products ≠ [] then
    search_single_known prefLookups searchResults
  else
    match searchResults with
    | some rs => apply_search_results rs "New item" "new"
    | none => { alternatives := [], status := "Error: search failed", status_class := "error" }

/-- Outcome of one proposal's resolution body: either a resolved proposal or a
raised exception with its message. -/
inductive ResolveOutcome where
  | ok (proposal : ResolvedProposal)
  | raised (msg : String)
  deriving Repr, DecidableEq

/-- The per-proposal failure isolation of _search_single_item (order.py
480-483): an exception raised anywhere in the resolution body is caught and
recorded on this proposal alone as "Error: message". -/
def resolve_with_isolation (o : ResolveOutcome) : ResolvedProposal :=
  match o with
  | .ok p => p
  | .raised m => { alternatives := [], status := "Error: " ++ m, status_class := "error" }

/-- Session fields relevant after the searching phase. -/
structure SessionAfterSearch where
  proposals : List ResolvedProposal
  status : String
  searched_count : Nat
  deriving Repr, DecidableEq

/-- Embedding of _search_items (order.py 490-515): all proposals are resolved
concurrently (asyncio.gather with return_exceptions=True, modelled as the
per-item isolated outcomes in list order), the finally-block of each task
bumps searched_count, and the session always transitions to "ready". -/
def search_items (outcomes : List ResolveOutcome) : SessionAfterSearch :=
  { proposals := outcomes.map resolve_with_isolation
    status := "ready"
    searched_count := outcomes.length }

/-- Parameter names of matcher.add_preferred_product (matcher.py 108-116). -/
def add_preferred_product_param_names : List String :=
  ["db", "grocery_item_id", "product_name", "product_url", "brand", "image_url", "rank"]

/-- Parameter names of matcher.make_product_top_choice (matcher.py 219). -/
def make_product_top_choice_param_names : List String :=
  ["db", "grocery_item_id", "product_name", "product_url", "brand", "image_url"]

/-- Column and constructor-keyword names of models.OrderLog (models.py 56-69). -/
def OrderLog_column_names : List String :=
  ["id", "session_id", "alexa_text", "matched_grocery_item_id", "proposed_product",
   "final_product", "was_corrected", "added_to_cart", "created_at"]

/-- Python call semantics: a call raises TypeError when some keyword argument
is not among the callee's declared parameters (none of the matcher functions
or SQLAlchemy model constructors here take variadic keywords beyond their
columns). -/
def kwargsAccepted (params kwargs : List String) : Bool :=
  kwargs.all (fun k => params.contains k)

/-- A row of the order_log table (models.OrderLog).  There is no skipped
column. -/
structure OrderLogRow where
  session_id : String
  alexa_text : String
  matched_grocery_item_id : Option Nat
  proposed_product : Option String
  final_product : Option String
  was_corrected : Bool
  added_to_cart : Bool
  deriving Repr, DecidableEq

/-- Embedding of _learn_from_result (order.py 1091-1114) acting on the matched
item's preference store (for an unknown item, create_grocery_item starts a
fresh item whose store is empty).  Every branch forwards size= to a matcher
function whose signature has no size parameter, which in Python raises
TypeError at the call; the branch bodies show what would be stored if the
call were accepted. -/
def learn_from_result (s : Store) (grocery_item_id : Option Nat)
    (final_product : String) (product_url brand image_url : Option String)
    (was_corrected : Bool) : Except String Store :=
  match grocery_item_id with
  | some _ =>
      if was_corrected then
        if kwargsAccepted make_product_top_choice_param_names
            ["product_url", "brand", "image_url", "size"] then
          .ok (make_product_top_choice s final_product product_url brand image_url)
        else .error "TypeError: make_product_top_choice got an unexpected keyword argument size"
      else
        if kwargsAccepted add_preferred_product_param_names
            ["product_url", "brand", "image_url", "size"] then
          .ok (add_preferred_product s final_product product_url brand image_url none)
        else .error "TypeError: add_preferred_product got an unexpected keyword argument size"
  | none =>
      if kwargsAccepted add_preferred_product_param_names
          ["product_url", "brand", "image_url", "rank", "size"] then
        .ok (add_preferred_product emptyStore final_product product_url brand image_url (some 1))
      else .error "TypeError: add_preferred_product got an unexpected keyword argument size"

/-- Result of one commit task as _run_commit sees it. -/
structure CommitOutcome where
  success : Bool
  reason : String
  committed_logs : List OrderLogRow
  store : Store
  deriving Repr, DecidableEq

/-- Embedding of the skip branch of _commit_single_item (order.py 792-812):
it constructs OrderLog(..., skipped=True).  models.OrderLog has no skipped
column, so the constructor raises TypeError; the branch has no exception
handler, so no row is inserted and the task fails. -/
def commit_skip_item (session_id alexa_text : String) (grocery_item_id : Option Nat)
    (proposed_product : Option String) : Except String (List OrderLogRow) :=
  if kwargsAccepted OrderLog_column_names
      ["session_id", "alexa_text", "matched_grocery_item_id", "proposed_product",
       "skipped"] then
    .ok [{ session_id := session_id, alexa_text := alexa_text
           matched_grocery_item_id := grocery_item_id
           proposed_product := proposed_product, final_product := none
           was_corrected := false, added_to_cart := false }]
  else
    .error "TypeError: skipped is an invalid keyword argument for OrderLog"

/-- Embedding of the non-skip path of _commit_single_item (order.py 820-898):
was_corrected is set when a proposed product existed and differs from the
final choice; an OrderLog row is staged; when the cart-add succeeded the
learning step runs, and an exception there reaches the except block, which
rolls the transaction back (dropping the staged row) and reports the item as
failed; when the cart-add failed, no learning runs and the row is committed. -/
def wasCorrectedOf (proposed_product : Option String) (final_product : String) : Bool :=
  match proposed_product with
  | some p => p ≠ final_product
  | none => false

def commitLogRow (session_id alexa_text : String) (grocery_item_id : Option Nat)
    (proposed_product : Option String) (final_product : String) (added : Bool) :
    OrderLogRow :=
  { session_id := session_id, alexa_text := alexa_text
    matched_grocery_item_id := grocery_item_id
    proposed_product := proposed_product, final_product := some final_product
    was_corrected := wasCorrectedOf proposed_product final_product
    added_to_cart := added }

def commit_single_item_nonskip (s : Store) (session_id alexa_text : String)
    (grocery_item_id : Option Nat) (proposed_product : Option String)
    (final_product : String) (product_url brand image_url : Option String)
    (added : Bool) : CommitOutcome :=
  let log := commitLogRow session_id alexa_text grocery_item_id proposed_product
    final_product added
  if added then
    match learn_from_result s grocery_item_id final_product product_url brand
        image_url (wasCorrectedOf proposed_product final_product) with
    | .ok s2 => { success := true, reason := "", committed_logs := [log], store := s2 }
    | .error e => { success := false, reason := e, committed_logs := [], store := s }
  else
    { success := false, reason := "Failed to add to cart",
      committed_logs := [log], store := s }

/-- One entry of the fetched Alexa shopping list. -/
structure AlexaItem where
  item_id : String
  text : String
  deriving Repr, DecidableEq

/-- Group key of the deduplication step of _run_order (order.py 240-253):
the grocery item id when the normalized text matches an alias, otherwise the
normalized text itself. -/
inductive GroupKey where
  | known (gid : Nat)
  | unknown (norm : String)
  deriving Repr, DecidableEq

def keyFor (aliases : List AliasRow) (item : AlexaItem) : GroupKey :=
  match aliases.find? (fun a => a.atext = normalize_text item.text) with
  | some a => .known a.grocery_item_id
  | none => .unknown (normalize_text item.text)

/-- groups.setdefault(key, []).append(item): Python dicts keep first-insertion
key order, and each key's list keeps encounter order. -/
def insertGroup (gs : List (GroupKey × List AlexaItem)) (k : GroupKey) (it : AlexaItem) :
    List (GroupKey × List AlexaItem) :=
  match gs with
  | [] => [(k, [it])]
  | (k2, l) :: rest =>
      if k2 = k then (k2, l ++ [it]) :: rest
      else (k2, l) :: insertGroup rest k it

/-- Embedding of the grouping loop of _run_order (order.py 243-251). -/
def groupItems (aliases : List AliasRow) (items : List AlexaItem) :
    List (GroupKey × List AlexaItem) :=
  items.foldl (fun gs it => insertGroup gs (keyFor aliases it) it) []

/-- The proposals built from the groups (order.py 255-271): the first entry of
a group is the primary, the rest become extra_alexa_items. -/
def proposalsFromGroups (aliases : List AliasRow) (items : List AlexaItem) :
    List (String × List String) :=
  (groupItems aliases items).map (fun g =>
    match g.2 with
    | [] => ("", [])
    | p :: es => (p.text, es.map (fun e => e.text)))

/-- The ranks column of one item's rows. -/
def ranks (s : Store) : List Int := s.rows.map (fun p => p.rank)

/-- The primary keys of a list of rows. -/
def pidsOf (rows : List PreferredProduct) : List Nat := rows.map (fun p => p.pid)

/-- The list i, i+1, ..., i+n-1. -/
def rangeInt : Int → Nat → List Int
  | _, 0 => []
  | i, n + 1 => i :: rangeInt (i + 1) n

/-- A list of ranks is dense for n rows: every rank in 1..n occurs exactly
once and nothing else occurs. -/
def DenseList (l : List Int) (n : Nat) : Prop :=
  ∀ k : Int, l.count k = if 1 ≤ k ∧ k ≤ (n : Int) then 1 else 0

/-- The spec's rank invariant: the set of PreferredProduct ranks of an item is
exactly 1..n with no gaps or duplicates. -/
def Dense (s : Store) : Prop := DenseList (ranks s) s.rows.length

/-- Database well-formedness that the table schema enforces: primary keys are
unique and below the autoincrement counter. -/
def WF (s : Store) : Prop :=
  (pidsOf s.rows).Nodup ∧ ∀ p ∈ s.rows, p.pid < s.nextId

/-- The operations quantified over by the rank-density property: the matcher's
add / promote / make-top-choice and the preferences route's delete. -/
inductive MatcherOp where
  | add (product_name : String) (product_url brand image_url : Option String)
      (rank? : Option Int)
  | del (pid : Nat)
  | promote (pid : Nat)
  | makeTop (product_name : String) (product_url brand image_url : Option String)
  deriving Repr, DecidableEq

def applyOp (s : Store) : MatcherOp → Store
  | .add n u b i r => add_preferred_product s n u b i r
  | .del pid => delete_product s pid
  | .promote pid => promote_product s pid
  | .makeTop n u b i => make_product_top_choice s n u b i

def applyOps (s : Store) : List MatcherOp → Store
  | [] => s
  | op :: rest => applyOps (applyOp s op) rest

/-- Side condition under which an operation keeps ranks dense: an explicit
rank passed to add_preferred_product must lie within 1..n+1 unless the call
deduplicates onto an existing row (the repository's own callers only ever
pass rank=1 or no rank, which always satisfies this). -/
def OpOk (s : Store) : MatcherOp → Prop
  | .add n u _ _ (some r) =>
      (dedupFind s n u).isSome ∨ (1 ≤ r ∧ r ≤ (s.rows.length : Int) + 1)
  | _ => True

def OpsOk : Store → List MatcherOp → Prop
  | _, [] => True
  | s, op :: rest => OpOk s op ∧ OpsOk (applyOp s op) rest

/-- Concrete preference row for the C2 failing input: rank-1 preference of a
known item, stored with a product URL. -/
def exampleMilkPref : PreferredProduct :=
  { pid := 1, rank := 1, product_name := "Brand X Milk",
    product_url := some "instacart.example/brand-x-milk", brand := none, image_url := none }

/-- Catalog lookup outcome for the C2 failing input: the preference's product
page resolves, is in stock, but reports no size. -/
def exampleMilkLookup : ProductResult :=
  { product_name := "Brand X Milk", product_url := some "instacart.example/brand-x-milk",
    brand := some "Brand X", price := some "3.99", image_url := none,
    in_stock := true, item_id := some "items_1-100", size := none }

/-- General search result for the C2 failing input: a different in-stock milk. -/
def exampleOtherMilk : ProductResult :=
  { product_name := "Store Brand Milk", product_url := some "instacart.example/store-milk",
    brand := some "Store Brand", price := some "2.49", image_url := none,
    in_stock := true, item_id := some "items_1-200", size := some "1 gal" }

/-- A successfully resolved proposal used by the C4 pipeline example. -/
def exampleMatchedProposal : ResolvedProposal :=
  { alternatives := [searchToOption exampleOtherMilk], status := "Matched",
    status_class := "matched" }

/-- The C4 example: 20 concurrent resolutions of which the last 5 raise. -/
def exampleOutcomes : List ResolveOutcome :=
  List.replicate 15 (.ok exampleMatchedProposal) ++ List.replicate 5 (.raised "boom")

/-- Alias table for the C7 witness. -/
def exampleAliasStore : AliasStore :=
  { rows := [{ aid := 1, grocery_item_id := 1, atext := "milk" }], nextId := 2 }

/-- Alias table for the C9 counterexample: two different aliases of item 1. -/
def exampleC9Aliases : List AliasRow :=
  [{ aid := 1, grocery_item_id := 1, atext := "milk" },
   { aid := 2, grocery_item_id := 1, atext := "moo juice" }]

/-- Shopping list for the C9 counterexample: two entries whose texts are
different aliases of the same item. -/
def exampleC9Items : List AlexaItem :=
  [{ item_id := "a1", text := "milk" }, { item_id := "a2", text := "moo juice" }]

/-- Database for the C10 witness: item 7 is known via alias "bread" and has
no preferred products. -/
def exampleBreadDB : MatcherDB :=
  { items := [{ gid := 7, name := "bread" }],
    aliases := [{ aid := 1, grocery_item_id := 7, atext := "bread" }],
    products := [] }

/-- Invariant of the grouping accumulator: every member of a group has that
group's key, and no group is empty. -/
def GroupsInv (aliases : List AliasRow) (gs : List (GroupKey × List AlexaItem)) : Prop :=
  (∀ g ∈ gs, ∀ x ∈ g.2, keyFor aliases x = g.1) ∧ ∀ g ∈ gs, g.2 ≠ []

/-- Store for the C5/C6 witnesses: two rows at ranks 1 and 2. -/
def exampleTwoRowStore : Store :=
  { rows :=
      [{ pid := 1, rank := 1, product_name := "Brand X Milk",
         product_url := some "instacart.example/brand-x-milk", brand := none, image_url := none },
       { pid := 2, rank := 2, product_name := "Brand Y Milk",
         product_url := some "instacart.example/brand-y-milk", brand := none, image_url := none }],
    nextId := 3 }

/-! Theorems.  Each claim of the specification is settled below; helper
lemmas are shared and carry no claim names. -/

/-- C7: add_alias raises a distinguishable conflict error (the ValueError its
callers catch) when the normalized alias text already belongs to a different
grocery item — it never reassigns the alias — and when the normalized text
already belongs to the same item it returns the existing alias row with the
store unchanged, creating no duplicate. -/
theorem C7_add_alias_conflict (s : AliasStore) (gid : Nat) (text : String)
    (e : AliasRow)
    (hfind : s.rows.find? (fun a => a.atext = normalize_text text) = some e) :
    (e.grocery_item_id ≠ gid → ∃ msg, add_alias s gid text = .error msg) ∧
    (e.grocery_item_id = gid → add_alias s gid text = .ok (s, e)) := by
  unfold add_alias
  rw [hfind]
  constructor
  · intro h
    exact ⟨"ValueError: alias already exists for a different item", by simp [h]⟩
  · intro h
    simp [h]

/-- Witness for C7 at a concrete store: alias "milk" belongs to item 1, so
adding it for item 2 errors and re-adding it (denormalized) for item 1
returns the existing row unchanged. -/
theorem C7_add_alias_conflict_witness :
    (∃ msg, add_alias exampleAliasStore 2 "milk" = .error msg) ∧
    add_alias exampleAliasStore 1 " MILK "
      = .ok (exampleAliasStore, { aid := 1, grocery_item_id := 1, atext := "milk" }) := by
  constructor
  · exact (C7_add_alias_conflict exampleAliasStore 2 "milk"
      { aid := 1, grocery_item_id := 1, atext := "milk" } (by decide)).1 (by decide)
  · exact (C7_add_alias_conflict exampleAliasStore 1 " MILK "
      { aid := 1, grocery_item_id := 1, atext := "milk" } (by decide)).2 (by decide)

/-- C8 (code bug): committing a proposal with the skip flag set constructs
OrderLog(..., skipped=True) at order.py 800-806, but models.OrderLog has no
skipped column, so the constructor raises TypeError; the skip branch has no
exception handler, hence no order-log record is created for a skipped item
at all, contradicting the claim that exactly one record recording the skip is
written. -/
theorem C8_skip_creates_no_orderlog (session_id alexa_text : String)
    (grocery_item_id : Option Nat) (proposed_product : Option String) :
    commit_skip_item session_id alexa_text grocery_item_id proposed_product
      = .error "TypeError: skipped is an invalid keyword argument for OrderLog" := by
  rfl

/-- C2 (code bug): known item, one rank-1 preference whose catalog lookup
succeeds and is in stock but reports no size.  The claim expects this
preference-derived match first in the candidate list and a "Matched"
classification; instead _fetch_pref evaluates pref.size (PreferredProduct has
no size column), the AttributeError is swallowed, the preference is dropped,
and the outcome is "Substituted" with only the search-derived candidate. -/
theorem C2_resolver_drops_sizeless_pref :
    exampleMilkLookup.in_stock = true ∧
    fetchPref exampleMilkPref (some exampleMilkLookup) = none ∧
    (search_single_known [(exampleMilkPref, some exampleMilkLookup)]
        (some [exampleOtherMilk])).status = "Substituted" ∧
    (search_single_known [(exampleMilkPref, some exampleMilkLookup)]
        (some [exampleOtherMilk])).alternatives
      = [searchToOption exampleOtherMilk] := by
  exact ⟨rfl, rfl, rfl, rfl⟩

/-- C3 (code bug): every branch of _learn_from_result forwards size= to a
matcher function whose signature has no size parameter, so the learning step
always raises TypeError instead of updating preferences; in the commit path
the exception is caught, the transaction is rolled back (discarding the staged
OrderLog row) and the item is reported failed even though the cart-add
succeeded — learning never runs to completion for any committed item. -/
theorem C3_learning_always_raises (s : Store) (grocery_item_id : Option Nat)
    (final_product : String) (product_url brand image_url : Option String)
    (was_corrected : Bool) (session_id alexa_text : String)
    (proposed_product : Option String) :
    (∃ msg, learn_from_result s grocery_item_id final_product product_url brand
        image_url was_corrected = .error msg) ∧
    (commit_single_item_nonskip s session_id alexa_text grocery_item_id
        proposed_product final_product product_url brand image_url true).success
      = false ∧
    (commit_single_item_nonskip s session_id alexa_text grocery_item_id
        proposed_product final_product product_url brand image_url
        true).committed_logs = [] ∧
    (commit_single_item_nonskip s session_id alexa_text grocery_item_id
        proposed_product final_product product_url brand image_url true).store
      = s := by
  have hlearn : ∀ wc : Bool, ∃ msg,
      learn_from_result s grocery_item_id final_product product_url brand
        image_url wc = .error msg := by
    intro wc
    unfold learn_from_result
    cases grocery_item_id with
    | none => exact ⟨_, rfl⟩
    | some g => cases wc <;> exact ⟨_, rfl⟩
  obtain ⟨msg, hmsg⟩ := hlearn (wasCorrectedOf proposed_product final_product)
  refine ⟨hlearn was_corrected, ?_, ?_, ?_⟩ <;>
    simp [commit_single_item_nonskip, hmsg]

/-- C10: an entry matching a known alias of an item with zero preferred
products resolves exactly like an unknown item: the plain search path,
classified "New item" when an in-stock result exists and "No results"
otherwise, never "Matched" or "Substituted". -/
theorem C10_known_without_products_is_search_only (db : MatcherDB) (text : String)
    (prefLookups : List (PreferredProduct × Option ProductResult))
    (rs : List ProductResult)
    (_hknown : (find_match db text).is_known = true)
    (hempty : (find_match db text).preferred_products = []) :
    search_single_item (find_match db text) prefLookups (some rs)
        = apply_search_results rs "New item" "new" ∧
    ((rs.filter (fun r => r.in_stock)) ≠ [] →
      (search_single_item (find_match db text) prefLookups (some rs)).status
        = "New item") ∧
    ((rs.filter (fun r => r.in_stock)) = [] →
      (search_single_item (find_match db text) prefLookups (some rs)).status
        = "No results") ∧
    (search_single_item (find_match db text) prefLookups (some rs)).status
      ≠ "Matched" ∧
    (search_single_item (find_match db text) prefLookups (some rs)).status
      ≠ "Substituted" ∧
    (∀ m2 : MatchResult, m2.is_known = false →
      search_single_item m2 prefLookups (some rs)
        = search_single_item (find_match db text) prefLookups (some rs)) := by
  have hdispatch : search_single_item (find_match db text) prefLookups (some rs)
      = apply_search_results rs "New item" "new" := by
    unfold search_single_item
    rw [if_neg]
    rintro ⟨h1, h2⟩
    exact h2 hempty
  have hstatus : ∀ st cl, (apply_search_results rs st cl).status = st ∨
      ((apply_search_results rs st cl).status = "No results" ∧
        rs.filter (fun r => r.in_stock) = []) := by
    intro st cl
    unfold apply_search_results
    by_cases h : rs.filter (fun r => r.in_stock) = []
    · rw [if_neg (by simpa using h)]
      exact Or.inr ⟨rfl, h⟩
    · rw [if_pos (by simpa using h)]
      exact Or.inl rfl
  refine ⟨hdispatch, ?_, ?_, ?_, ?_, ?_⟩
  · intro hne
    rw [hdispatch]
    unfold apply_search_results
    rw [if_pos (by simpa using hne)]
  · intro heq
    rw [hdispatch]
    unfold apply_search_results
    rw [if_neg (by simpa using heq)]
  · rw [hdispatch]
    rcases hstatus "New item" "new" with h | ⟨h, _⟩ <;> rw [h] <;> decide
  · rw [hdispatch]
    rcases hstatus "New item" "new" with h | ⟨h, _⟩ <;> rw [h] <;> decide
  · intro m2 hm2
    rw [hdispatch]
    unfold search_single_item
    rw [if_neg]
    rintro ⟨h1, _⟩
    rw [hm2] at h1
    exact Bool.false_ne_true h1

/-- Witness for C10: "Bread " matches the alias of item 7, which has no
preferred products; with one in-stock search result the status is "New item". -/
theorem C10_known_without_products_is_search_only_witness :
    (search_single_item (find_match exampleBreadDB "Bread ") []
        (some [exampleOtherMilk])).status = "New item" :=
  (C10_known_without_products_is_search_only exampleBreadDB "Bread " []
    [exampleOtherMilk] (by decide) (by decide)).2.1 (by decide)

/-- C4: the searching phase isolates per-proposal failures: whichever subset
of the concurrent resolutions raises, every proposal still gets a final
status, a failed proposal alone is marked "Error: message", successful ones
keep their resolved value, and the session transitions to ready with the full
searched count; in particular 20 proposals with 5 raising yield a ready
session with 15 resolved and 5 Error-marked proposals. -/
theorem C4_partial_failures_isolated (outcomes : List ResolveOutcome) :
    (search_items outcomes).status = "ready" ∧
    (search_items outcomes).searched_count = outcomes.length ∧
    (search_items outcomes).proposals.length = outcomes.length ∧
    (∀ (i : Nat) (m : String), outcomes[i]? = some (.raised m) →
      (search_items outcomes).proposals[i]?
        = some { alternatives := [], status := "Error: " ++ m,
                 status_class := "error" }) ∧
    (∀ (i : Nat) (p : ResolvedProposal), outcomes[i]? = some (.ok p) →
      (search_items outcomes).proposals[i]? = some p) ∧
    (search_items exampleOutcomes).status = "ready" ∧
    (search_items exampleOutcomes).proposals.countP
        (fun p => p.status = "Matched") = 15 ∧
    (search_items exampleOutcomes).proposals.countP
        (fun p => p.status = "Error: boom") = 5 := by
  refine ⟨rfl, rfl, by simp [search_items], ?_, ?_, rfl, by decide, by decide⟩
  · intro i m h
    simp [search_items, List.getElem?_map, h, resolve_with_isolation]
  · intro i p h
    simp [search_items, List.getElem?_map, h, resolve_with_isolation]

/-- Witness for C4: proposal 15 of the example (the first raising one) is
marked with its error message. -/
theorem C4_partial_failures_isolated_witness :
    (search_items exampleOutcomes).proposals[15]?
      = some { alternatives := [], status := "Error: " ++ "boom",
               status_class := "error" } :=
  (C4_partial_failures_isolated exampleOutcomes).2.2.2.1 15 "boom" (by decide)

/-- C9 counterexample: "milk" and "moo juice" are distinct texts (so not
exact duplicates) but aliases of the same grocery item; the grouping step
keys known entries by grocery_item_id, so the two entries are merged into ONE
proposal with the second as an extra source entry — not two separate
proposals as the claim states. -/
theorem C9_counterexample :
    normalize_text "milk" ≠ normalize_text "moo juice" ∧
    keyFor exampleC9Aliases { item_id := "a1", text := "milk" }
      = keyFor exampleC9Aliases { item_id := "a2", text := "moo juice" } ∧
    (groupItems exampleC9Aliases exampleC9Items).length = 1 ∧
    proposalsFromGroups exampleC9Aliases exampleC9Items
      = [("milk", ["moo juice"])] := by
  exact ⟨by decide, by decide, by decide, by decide⟩

theorem insertGroup_flatMap_perm (gs : List (GroupKey × List AlexaItem))
    (k : GroupKey) (it : AlexaItem) :
    ((insertGroup gs k it).flatMap (fun g => g.2)).Perm
      ((gs.flatMap (fun g => g.2)) ++ [it]) := by
  induction gs with
  | nil => simp [insertGroup]
  | cons g rest ih =>
      obtain ⟨k2, l⟩ := g
      by_cases h : k2 = k
      · simp only [insertGroup, if_pos h, List.flatMap_cons]
        rw [List.append_assoc, List.append_assoc]
        exact List.Perm.append_left l List.perm_append_comm
      · simp only [insertGroup, if_neg h, List.flatMap_cons]
        rw [List.append_assoc]
        exact List.Perm.append_left l ih

theorem insertGroup_keys (gs : List (GroupKey × List AlexaItem)) (k : GroupKey)
    (it : AlexaItem) :
    (insertGroup gs k it).map (fun g => g.1)
      = if k ∈ gs.map (fun g => g.1) then gs.map (fun g => g.1)
        else gs.map (fun g => g.1) ++ [k] := by
  induction gs with
  | nil => simp [insertGroup]
  | cons g rest ih =>
      obtain ⟨k2, l⟩ := g
      by_cases h : k2 = k
      · simp [insertGroup, h]
      · simp only [insertGroup, if_neg h, List.map_cons, ih]
        by_cases h2 : k ∈ rest.map (fun g => g.1)
        · rw [if_pos h2, if_pos (by simp [h2])]
        · have h3 : k ∉ k2 :: rest.map (fun g => g.1) := by
            simp only [List.mem_cons, not_or]
            exact ⟨fun e => h e.symm, h2⟩
          rw [if_neg h2, if_neg h3, List.cons_append]

theorem insertGroup_inv (aliases : List AliasRow)
    (gs : List (GroupKey × List AlexaItem)) (k : GroupKey) (it : AlexaItem)
    (h : GroupsInv aliases gs) (hk : keyFor aliases it = k) :
    GroupsInv aliases (insertGroup gs k it) := by
  induction gs with
  | nil =>
      refine ⟨?_, ?_⟩
      · intro g hg x hx
        simp only [insertGroup, List.mem_singleton] at hg
        subst hg
        simp only [List.mem_singleton] at hx
        subst hx
        exact hk
      · intro g hg
        simp only [insertGroup, List.mem_singleton] at hg
        subst hg
        simp
  | cons g0 rest ih =>
      obtain ⟨k2, l⟩ := g0
      obtain ⟨h1, h2⟩ := h
      by_cases hcase : k2 = k
      · subst hcase
        refine ⟨?_, ?_⟩
        · intro g hg x hx
          simp only [insertGroup, eq_self_iff_true, if_true, List.mem_cons] at hg
          rcases hg with hg | hg
          · subst hg
            simp only [List.mem_append, List.mem_singleton] at hx
            rcases hx with hx | hx
            · exact h1 (k2, l) (List.mem_cons_self _ _) x hx
            · subst hx; exact hk
          · exact h1 g (List.mem_cons_of_mem _ hg) x hx
        · intro g hg
          simp only [insertGroup, eq_self_iff_true, if_true, List.mem_cons] at hg
          rcases hg with hg | hg
          · subst hg; simp
          · exact h2 g (List.mem_cons_of_mem _ hg)
      · have hrest : GroupsInv aliases rest := by
          constructor
          · intro g hg x hx
            exact h1 g (List.mem_cons_of_mem _ hg) x hx
          · intro g hg
            exact h2 g (List.mem_cons_of_mem _ hg)
        obtain ⟨ih1, ih2⟩ := ih hrest
        refine ⟨?_, ?_⟩
        · intro g hg x hx
          simp only [insertGroup, if_neg hcase, List.mem_cons] at hg
          rcases hg with hg | hg
          · subst hg; exact h1 (k2, l) (List.mem_cons_self _ _) x hx
          · exact ih1 g hg x hx
        · intro g hg
          simp only [insertGroup, if_neg hcase, List.mem_cons] at hg
          rcases hg with hg | hg
          · subst hg; exact h2 (k2, l) (List.mem_cons_self _ _)
          · exact ih2 g hg

theorem groupItems_loop_inv (aliases : List AliasRow) (items : List AlexaItem) :
    ∀ gs, GroupsInv aliases gs →
      GroupsInv aliases
        (items.foldl (fun a it => insertGroup a (keyFor aliases it) it) gs) := by
  induction items with
  | nil => intro gs h; exact h
  | cons it rest ih =>
      intro gs h
      simp only [List.foldl_cons]
      exact ih _ (insertGroup_inv aliases gs _ it h rfl)

theorem groupItems_loop_perm (aliases : List AliasRow) (items : List AlexaItem) :
    ∀ gs,
      ((items.foldl (fun a it => insertGroup a (keyFor aliases it) it)
          gs).flatMap (fun g => g.2)).Perm
        ((gs.flatMap (fun g => g.2)) ++ items) := by
  induction items with
  | nil => intro gs; simp
  | cons it rest ih =>
      intro gs
      simp only [List.foldl_cons]
      refine (ih _).trans ?_
      have h1 := insertGroup_flatMap_perm gs (keyFor aliases it) it
      have h2 := List.Perm.append_right rest h1
      refine h2.trans ?_
      rw [List.append_assoc, List.singleton_append]

theorem groupItems_loop_keys_nodup (aliases : List AliasRow)
    (items : List AlexaItem) :
    ∀ gs, (gs.map (fun g => g.1)).Nodup →
      ((items.foldl (fun a it => insertGroup a (keyFor aliases it) it)
          gs).map (fun g => g.1)).Nodup := by
  induction items with
  | nil => intro gs h; exact h
  | cons it rest ih =>
      intro gs h
      simp only [List.foldl_cons]
      refine ih _ ?_
      rw [insertGroup_keys]
      by_cases h2 : keyFor aliases it ∈ gs.map (fun g => g.1)
      · rwa [if_pos h2]
      · rw [if_neg h2]
        simp [List.nodup_append, h, h2]

/-- C9 amended: the grouping step collapses shopping-list entries by resolved
identity — entries whose normalized text matches an alias are keyed by that
grocery item id (so two different aliases of the same item are merged into one
proposal carrying the extras), and unknown entries are keyed by their
normalized text (exact duplicates only); the resulting groups partition the
entries, every group's members share its key, groups are non-empty, and no
two groups share a key. -/
theorem C9_grouping_partitions_by_key (aliases : List AliasRow)
    (items : List AlexaItem) :
    ((groupItems aliases items).flatMap (fun g => g.2)).Perm items ∧
    (∀ g ∈ groupItems aliases items, ∀ x ∈ g.2, keyFor aliases x = g.1) ∧
    (∀ g ∈ groupItems aliases items, g.2 ≠ []) ∧
    ((groupItems aliases items).map (fun g => g.1)).Nodup := by
  have hperm := groupItems_loop_perm aliases items []
  have hinv := groupItems_loop_inv aliases items []
    ⟨by intro g hg; simp at hg, by intro g hg; simp at hg⟩
  have hnd := groupItems_loop_keys_nodup aliases items [] (by simp)
  exact ⟨by simpa [groupItems] using hperm, hinv.1, hinv.2, hnd⟩

/-! Counting machinery for the dense-rank invariant. -/

theorem count_rangeInt (i : Int) (n : Nat) (k : Int) :
    (rangeInt i n).count k = if i ≤ k ∧ k < i + n then 1 else 0 := by
  induction n generalizing i with
  | zero =>
      simp only [rangeInt, List.count_nil, Nat.cast_zero]
      split_ifs <;> omega
  | succ n ih =>
      simp only [rangeInt, List.count_cons, ih (i + 1), beq_iff_eq, Nat.cast_succ]
      split_ifs <;> omega

theorem denseList_of_perm (l : List Int) (n : Nat) (h : l.Perm (rangeInt 1 n)) :
    DenseList l n := by
  intro k
  rw [h.count_eq, count_rangeInt]
  split_ifs <;> omega

theorem count_map_shift_ge (l : List Int) (r k : Int) :
    (l.map (fun t => if r ≤ t then t + 1 else t)).count k
      = if k = r then 0 else if r < k then l.count (k - 1) else l.count k := by
  induction l with
  | nil =>
      simp only [List.map_nil, List.count_nil]
      split_ifs <;> rfl
  | cons a t ih =>
      simp only [List.map_cons, List.count_cons, ih, beq_iff_eq]
      split_ifs <;> omega

theorem count_map_shift_lt (l : List Int) (R k : Int) :
    (l.map (fun t => if t < R then t + 1 else t)).count k
      = (if k - 1 < R then l.count (k - 1) else 0)
        + (if R ≤ k then l.count k else 0) := by
  induction l with
  | nil =>
      simp only [List.map_nil, List.count_nil]
      split_ifs <;> rfl
  | cons a t ih =>
      simp only [List.map_cons, List.count_cons, ih, beq_iff_eq]
      split_ifs <;> omega

theorem denseList_shift_insert (l : List Int) (n : Nat) (r : Int)
    (hd : DenseList l n) (h1 : 1 ≤ r) (h2 : r ≤ (n : Int) + 1) :
    DenseList ((l.map (fun t => if r ≤ t then t + 1 else t)) ++ [r]) (n + 1) := by
  intro k
  have e0 := hd k
  have e1 := hd (k - 1)
  rw [List.count_append, count_map_shift_ge]
  simp only [List.count_cons, List.count_nil, beq_iff_eq, Nat.cast_add, Nat.cast_one]
  split_ifs at * <;> omega

theorem ranks_map_preserve (rows : List PreferredProduct)
    (f : PreferredProduct → PreferredProduct) (h : ∀ q, (f q).rank = q.rank) :
    (rows.map f).map (fun p => p.rank) = rows.map (fun p => p.rank) := by
  induction rows with
  | nil => rfl
  | cons q t ih => simp only [List.map_cons, h, ih]

theorem pids_map_preserve (rows : List PreferredProduct)
    (f : PreferredProduct → PreferredProduct) (h : ∀ q, (f q).pid = q.pid) :
    pidsOf (rows.map f) = pidsOf rows := by
  unfold pidsOf
  induction rows with
  | nil => rfl
  | cons q t ih => simp only [List.map_cons, h, ih]

theorem ranks_shift_rows (rows : List PreferredProduct) (r : Int) :
    (rows.map (fun q => if r ≤ q.rank then { q with rank := q.rank + 1 } else q)).map
        (fun p => p.rank)
      = (rows.map (fun p => p.rank)).map (fun t => if r ≤ t then t + 1 else t) := by
  induction rows with
  | nil => rfl
  | cons q t ih =>
      simp only [List.map_cons, ih]
      congr 1
      by_cases h : r ≤ q.rank <;> simp [h]

theorem maxRank_eq_none_iff (rows : List PreferredProduct) :
    maxRank rows = none ↔ rows = [] := by
  cases rows with
  | nil => simp [maxRank]
  | cons q t =>
      simp only [maxRank]
      cases h : maxRank t <;> simp

theorem maxRank_spec (rows : List PreferredProduct) (m : Int)
    (h : maxRank rows = some m) :
    (∃ p ∈ rows, p.rank = m) ∧ ∀ p ∈ rows, p.rank ≤ m := by
  induction rows generalizing m with
  | nil => simp [maxRank] at h
  | cons q t ih =>
      unfold maxRank at h
      cases ht : maxRank t with
      | none =>
          rw [ht] at h
          have he : t = [] := (maxRank_eq_none_iff t).mp ht
          subst he
          simp only [Option.some_inj] at h
          subst h
          exact ⟨⟨q, by simp⟩, by simp⟩
      | some m2 =>
          rw [ht] at h
          simp only [Option.some_inj] at h
          obtain ⟨⟨p0, hp0, hp0r⟩, hub⟩ := ih m2 ht
          constructor
          · rcases le_total q.rank m2 with hle | hle
            · exact ⟨p0, by simp [hp0], by omega⟩
            · exact ⟨q, by simp, by omega⟩
          · intro p hp
            rcases List.mem_cons.mp hp with hp | hp
            · subst hp; omega
            · have := hub p hp; omega

theorem dense_rank_bounds (s : Store) (hd : Dense s) (p : PreferredProduct)
    (hp : p ∈ s.rows) : 1 ≤ p.rank ∧ p.rank ≤ (s.rows.length : Int) := by
  have h1 : p.rank ∈ ranks s := List.mem_map_of_mem _ hp
  have h2 : 0 < (ranks s).count p.rank := List.count_pos_iff.mpr h1
  have h3 := hd p.rank
  rw [h3] at h2
  split_ifs at h2 with h4
  · exact h4
  · omega

theorem maxRank_dense (s : Store) (hd : Dense s) (hne : s.rows ≠ []) :
    maxRank s.rows = some (s.rows.length : Int) := by
  cases h : maxRank s.rows with
  | none => exact absurd ((maxRank_eq_none_iff _).mp h) hne
  | some m =>
      obtain ⟨⟨p0, hp0, hp0r⟩, hub⟩ := maxRank_spec _ _ h
      have hb := dense_rank_bounds s hd p0 hp0
      have hn1 : 0 < s.rows.length := List.length_pos.mpr hne
      have hcount := hd (s.rows.length : Int)
      rw [if_pos ⟨by exact_mod_cast hn1, le_refl _⟩] at hcount
      have hmem : ((s.rows.length : Int)) ∈ ranks s := by
        refine List.count_pos_iff.mp ?_
        omega
      obtain ⟨q, hq, hqr⟩ := List.mem_map.mp hmem
      have hq2 := hub q hq
      have : m = (s.rows.length : Int) := by omega
      rw [this]

theorem setRank_of_not_mem (rows : List PreferredProduct) (pid : Nat) (r : Int)
    (h : pid ∉ pidsOf rows) : setRank rows pid r = rows := by
  induction rows with
  | nil => rfl
  | cons q t ih =>
      simp only [pidsOf, List.map_cons, List.mem_cons, not_or] at h
      simp only [setRank, List.map_cons] at ih ⊢
      rw [if_neg (fun e => h.1 e.symm), ih (by simpa [pidsOf] using h.2)]

theorem pidsOf_setRank (rows : List PreferredProduct) (pid : Nat) (r : Int) :
    pidsOf (setRank rows pid r) = pidsOf rows := by
  refine pids_map_preserve rows _ ?_
  intro q
  by_cases h : q.pid = pid <;> simp [h]

theorem length_setRank (rows : List PreferredProduct) (pid : Nat) (r : Int) :
    (setRank rows pid r).length = rows.length := by
  simp [setRank]

theorem mem_setRank_of_ne (rows : List PreferredProduct) (pid : Nat) (r : Int)
    (q : PreferredProduct) (hq : q ∈ rows) (h : ¬ q.pid = pid) :
    q ∈ setRank rows pid r := by
  have h2 : (if q.pid = pid then { q with rank := r } else q)
      ∈ rows.map (fun x => if x.pid = pid then { x with rank := r } else x) :=
    List.mem_map_of_mem _ hq
  rwa [if_neg h] at h2

theorem mem_setRank_self (rows : List PreferredProduct) (pid : Nat) (r : Int)
    (x : PreferredProduct) (hx : x ∈ rows) (hpid : x.pid = pid) :
    ({ x with rank := r } : PreferredProduct) ∈ setRank rows pid r := by
  have h2 : (if x.pid = pid then { x with rank := r } else x)
      ∈ rows.map (fun y => if y.pid = pid then { y with rank := r } else y) :=
    List.mem_map_of_mem _ hx
  rwa [if_pos hpid] at h2

theorem count_ranks_setRank (rows : List PreferredProduct) (x : PreferredProduct)
    (hx : x ∈ rows) (hnd : (pidsOf rows).Nodup) (r k : Int) :
    ((setRank rows x.pid r).map (fun p => p.rank)).count k
      = ((rows.map (fun p => p.rank)).count k
          - (if x.rank = k then 1 else 0)) + (if r = k then 1 else 0) := by
  induction rows with
  | nil => cases hx
  | cons q t ih =>
      simp only [pidsOf, List.map_cons, List.nodup_cons] at hnd
      obtain ⟨hq_not, hnd_t⟩ := hnd
      by_cases hcase : q.pid = x.pid
      · have hxq : x = q := by
          rcases List.mem_cons.mp hx with h | h
          · exact h
          · exact absurd (by rw [hcase]; exact List.mem_map_of_mem _ h) hq_not
        subst hxq
        simp only [setRank, List.map_cons, if_pos hcase]
        rw [show List.map (fun q => if q.pid = x.pid then { q with rank := r } else q) t
              = setRank t x.pid r from rfl,
            setRank_of_not_mem t x.pid r (by simpa [pidsOf, hcase] using hq_not)]
        simp only [List.count_cons, beq_iff_eq]
        split_ifs <;> omega
      · have hxt : x ∈ t := by
          rcases List.mem_cons.mp hx with h | h
          · exact absurd (by rw [h]) hcase
          · exact h
        have hge : (if x.rank = k then 1 else 0) ≤ (t.map (fun p => p.rank)).count k := by
          split_ifs with h
          · refine List.count_pos_iff.mpr ?_
            rw [← h]
            exact List.mem_map_of_mem _ hxt
          · exact Nat.zero_le _
        have iht := ih hxt (by simpa [pidsOf] using hnd_t)
        simp only [setRank, List.map_cons, if_neg hcase] at iht ⊢
        simp only [List.count_cons, beq_iff_eq]
        omega

theorem find?_pid_facts (rows : List PreferredProduct) (pid : Nat)
    (p : PreferredProduct) (h : rows.find? (fun q => q.pid = pid) = some p) :
    p ∈ rows ∧ p.pid = pid := by
  refine ⟨List.mem_of_find?_eq_some h, ?_⟩
  have := List.find?_some h
  simpa using this

theorem find?_rank_facts (rows : List PreferredProduct) (r : Int)
    (a : PreferredProduct) (h : rows.find? (fun q => q.rank = r) = some a) :
    a ∈ rows ∧ a.rank = r := by
  refine ⟨List.mem_of_find?_eq_some h, ?_⟩
  have := List.find?_some h
  simpa using this

theorem pid_inj (rows : List PreferredProduct) (hnd : (pidsOf rows).Nodup)
    (p q : PreferredProduct) (hp : p ∈ rows) (hq : q ∈ rows) (h : p.pid = q.pid) :
    p = q :=
  List.inj_on_of_nodup_map (by simpa [pidsOf] using hnd) hp hq h

theorem promote_core (s : Store) (pid : Nat) (p : PreferredProduct)
    (hwf : WF s) (hd : Dense s)
    (hp : s.rows.find? (fun q => q.pid = pid) = some p)
    (hrank : 1 < p.rank) :
    ∃ a, s.rows.find? (fun q => q.rank = p.rank - 1) = some a ∧
      a ∈ s.rows ∧ a.rank = p.rank - 1 ∧ ¬ a.pid = p.pid ∧
      (∀ k : Int, (ranks (promote_product s pid)).count k = (ranks s).count k) ∧
      (∀ st ∈ promoteStates s pid, (ranks st).Nodup) ∧
      pidsOf (promote_product s pid).rows = pidsOf s.rows ∧
      (promote_product s pid).rows.length = s.rows.length ∧
      (promote_product s pid).nextId = s.nextId ∧
      ({ p with rank := p.rank - 1 } : PreferredProduct) ∈ (promote_product s pid).rows ∧
      ({ a with rank := p.rank } : PreferredProduct) ∈ (promote_product s pid).rows ∧
      (∀ q ∈ s.rows, ¬ q.pid = p.pid → ¬ q.pid = a.pid →
        q ∈ (promote_product s pid).rows) := by
  obtain ⟨hpmem, hppid⟩ := find?_pid_facts s.rows pid p hp
  obtain ⟨hnd, hbound⟩ := hwf
  have hpb := dense_rank_bounds s hd p hpmem
  have hcnt : (ranks s).count (p.rank - 1) = 1 := by
    have h2 := hd (p.rank - 1)
    rwa [if_pos (by omega)] at h2
  have hmem1 : (p.rank - 1) ∈ ranks s := List.count_pos_iff.mp (by omega)
  obtain ⟨a0, ha0mem, ha0r⟩ := List.mem_map.mp hmem1
  cases hfa : s.rows.find? (fun q => q.rank = p.rank - 1) with
  | none =>
      exfalso
      have h3 := List.find?_eq_none.mp hfa a0 ha0mem
      simp [ha0r] at h3
  | some a =>
      obtain ⟨hamem, har⟩ := find?_rank_facts s.rows (p.rank - 1) a hfa
      have hapid : ¬ a.pid = p.pid := by
        intro h
        have h4 : a = p := pid_inj s.rows hnd a p hamem hpmem h
        rw [h4] at har
        omega
      have hps : promoteStates s pid
          = [⟨setRank s.rows a.pid (-1), s.nextId⟩,
             ⟨setRank (setRank s.rows a.pid (-1)) p.pid (p.rank - 1), s.nextId⟩,
             ⟨setRank (setRank (setRank s.rows a.pid (-1)) p.pid (p.rank - 1))
                a.pid p.rank, s.nextId⟩] := by
        unfold promoteStates
        rw [hp]
        dsimp only
        rw [if_neg (show ¬ p.rank ≤ 1 by omega), hfa]
      have hpp : promote_product s pid
          = ⟨setRank (setRank (setRank s.rows a.pid (-1)) p.pid (p.rank - 1))
               a.pid p.rank, s.nextId⟩ := by
        unfold promote_product
        rw [hps]
        rfl
      have hp1 : p ∈ setRank s.rows a.pid (-1) :=
        mem_setRank_of_ne _ _ _ p hpmem (fun e => hapid e.symm)
      have hnd1 : (pidsOf (setRank s.rows a.pid (-1))).Nodup := by
        rw [pidsOf_setRank]; exact hnd
      have hp2 : ({ p with rank := p.rank - 1 } : PreferredProduct)
          ∈ setRank (setRank s.rows a.pid (-1)) p.pid (p.rank - 1) :=
        mem_setRank_self _ _ _ p hp1 rfl
      have hnd2 : (pidsOf (setRank (setRank s.rows a.pid (-1)) p.pid
          (p.rank - 1))).Nodup := by
        rw [pidsOf_setRank, pidsOf_setRank]; exact hnd
      have hp3 : ({ p with rank := p.rank - 1 } : PreferredProduct)
          ∈ setRank (setRank (setRank s.rows a.pid (-1)) p.pid (p.rank - 1))
              a.pid p.rank :=
        mem_setRank_of_ne _ _ _ _ hp2 (fun e => hapid e.symm)
      have ha1 : ({ a with rank := -1 } : PreferredProduct)
          ∈ setRank s.rows a.pid (-1) :=
        mem_setRank_self _ _ _ a hamem rfl
      have ha2 : ({ a with rank := -1 } : PreferredProduct)
          ∈ setRank (setRank s.rows a.pid (-1)) p.pid (p.rank - 1) :=
        mem_setRank_of_ne _ _ _ _ ha1 hapid
      have ha3 : ({ a with rank := p.rank } : PreferredProduct)
          ∈ setRank (setRank (setRank s.rows a.pid (-1)) p.pid (p.rank - 1))
              a.pid p.rank :=
        mem_setRank_self _ _ _ ({ a with rank := -1 }) ha2 rfl
      have c1 : ∀ k : Int,
          ((setRank s.rows a.pid (-1)).map (fun q => q.rank)).count k
            = ((s.rows.map (fun q => q.rank)).count k
                - (if p.rank - 1 = k then 1 else 0))
              + (if (-1 : Int) = k then 1 else 0) := by
        intro k
        have h5 := count_ranks_setRank s.rows a hamem hnd (-1) k
        rwa [har] at h5
      have c2 : ∀ k : Int,
          ((setRank (setRank s.rows a.pid (-1)) p.pid (p.rank - 1)).map
              (fun q => q.rank)).count k
            = (((setRank s.rows a.pid (-1)).map (fun q => q.rank)).count k
                - (if p.rank = k then 1 else 0))
              + (if p.rank - 1 = k then 1 else 0) := by
        intro k
        exact count_ranks_setRank (setRank s.rows a.pid (-1)) p hp1 hnd1 (p.rank - 1) k
      have c3 : ∀ k : Int,
          ((setRank (setRank (setRank s.rows a.pid (-1)) p.pid (p.rank - 1))
              a.pid p.rank).map (fun q => q.rank)).count k
            = (((setRank (setRank s.rows a.pid (-1)) p.pid (p.rank - 1)).map
                  (fun q => q.rank)).count k
                - (if (-1 : Int) = k then 1 else 0))
              + (if p.rank = k then 1 else 0) := by
        intro k
        have h6 := count_ranks_setRank
          (setRank (setRank s.rows a.pid (-1)) p.pid (p.rank - 1))
          ({ a with rank := -1 }) ha2 hnd2 p.rank k
        simpa using h6
      have hkey : ∀ k : Int,
          ((setRank (setRank (setRank s.rows a.pid (-1)) p.pid (p.rank - 1))
              a.pid p.rank).map (fun q => q.rank)).count k
            = (s.rows.map (fun q => q.rank)).count k := by
        intro k
        have e0 := hd k
        simp only [ranks] at e0
        have c1k := c1 k
        have c2k := c2 k
        have c3k := c3 k
        split_ifs at c1k c2k c3k e0 <;> omega
      refine ⟨a, rfl, hamem, har, hapid, ?_, ?_, ?_, ?_, ?_, ?_, ?_, ?_⟩
      · intro k
        rw [hpp]
        simp only [ranks]
        exact hkey k
      · intro st hst
        rw [hps] at hst
        simp only [List.mem_cons, List.not_mem_nil, or_false] at hst
        have hboundA : ∀ k : Int,
            ((setRank s.rows a.pid (-1)).map (fun q => q.rank)).count k ≤ 1 := by
          intro k
          have e0 := hd k
          simp only [ranks] at e0
          have c1k := c1 k
          split_ifs at c1k e0 <;> omega
        have hboundB : ∀ k : Int,
            ((setRank (setRank s.rows a.pid (-1)) p.pid (p.rank - 1)).map
                (fun q => q.rank)).count k ≤ 1 := by
          intro k
          have e0 := hd k
          simp only [ranks] at e0
          have c1k := c1 k
          have c2k := c2 k
          split_ifs at c1k c2k e0 <;> omega
        have hboundC : ∀ k : Int,
            ((setRank (setRank (setRank s.rows a.pid (-1)) p.pid (p.rank - 1))
                a.pid p.rank).map (fun q => q.rank)).count k ≤ 1 := by
          intro k
          have e0 := hd k
          simp only [ranks] at e0
          rw [hkey k]
          split_ifs at e0 <;> omega
        rcases hst with h | h | h <;> subst h <;>
          refine List.nodup_iff_count_le_one.mpr (fun k => ?_)
        · exact hboundA k
        · exact hboundB k
        · exact hboundC k
      · rw [hpp]
        simp only
        rw [pidsOf_setRank, pidsOf_setRank, pidsOf_setRank]
      · rw [hpp]
        simp only
        rw [length_setRank, length_setRank, length_setRank]
      · rw [hpp]
      · rw [hpp]
        exact hp3
      · rw [hpp]
        exact ha3
      · intro q hq hq1 hq2
        rw [hpp]
        exact mem_setRank_of_ne _ _ _ q
          (mem_setRank_of_ne _ _ _ q
            (mem_setRank_of_ne _ _ _ q hq hq2) hq1) hq2

/-- C5: promote_product on the rank-1 product leaves the store unchanged; on a
product at rank r > 1 it swaps ranks with the row currently at rank r-1,
leaving every other row untouched and the multiset of ranks unchanged, and no
flushed intermediate state ever holds two rows with the same rank (the swap
passes through the temporary out-of-range rank -1). -/
theorem C5_promote_swap (s : Store) (pid : Nat) (p : PreferredProduct)
    (hwf : WF s) (hd : Dense s)
    (hp : s.rows.find? (fun q => q.pid = pid) = some p) :
    (p.rank = 1 → promote_product s pid = s) ∧
    (1 < p.rank →
      ∃ a, s.rows.find? (fun q => q.rank = p.rank - 1) = some a ∧
        a.rank = p.rank - 1 ∧
        (ranks (promote_product s pid)).Perm (ranks s) ∧
        ({ p with rank := p.rank - 1 } : PreferredProduct)
          ∈ (promote_product s pid).rows ∧
        ({ a with rank := p.rank } : PreferredProduct)
          ∈ (promote_product s pid).rows ∧
        (∀ q ∈ s.rows, ¬ q.pid = p.pid → ¬ q.pid = a.pid →
          q ∈ (promote_product s pid).rows) ∧
        (∀ st ∈ promoteStates s pid, (ranks st).Nodup)) := by
  constructor
  · intro h1
    unfold promote_product promoteStates
    rw [hp]
    dsimp only
    rw [if_pos (by omega)]
    rfl
  · intro hrank
    obtain ⟨a, hfa, hamem, har, hapid, hcount, hnodup, _, _, _, hpmem, hamem2,
      hothers⟩ := promote_core s pid p hwf hd hp hrank
    exact ⟨a, hfa, har, List.perm_iff_count.mpr hcount, hpmem, hamem2, hothers,
      hnodup⟩

/-- Witness for C5 at the two-row store: promoting the rank-2 product swaps
the two ranks (duplicate-free at every flushed step) and promoting the rank-1
product is a no-op. -/
theorem C5_promote_swap_witness :
    (ranks (promote_product exampleTwoRowStore 2)).Perm (ranks exampleTwoRowStore) ∧
    (∀ st ∈ promoteStates exampleTwoRowStore 2, (ranks st).Nodup) ∧
    promote_product exampleTwoRowStore 1 = exampleTwoRowStore := by
  have h := C5_promote_swap exampleTwoRowStore 2
    { pid := 2, rank := 2, product_name := "Brand Y Milk",
      product_url := some "instacart.example/brand-y-milk", brand := none,
      image_url := none }
    ⟨by decide, by decide⟩ (denseList_of_perm _ _ (by decide)) (by decide)
  obtain ⟨a, _, _, hperm, _, _, _, hnd⟩ := h.2 (by decide)
  refine ⟨hperm, hnd, ?_⟩
  have h3 := C5_promote_swap exampleTwoRowStore 1
    { pid := 1, rank := 1, product_name := "Brand X Milk",
      product_url := some "instacart.example/brand-x-milk", brand := none,
      image_url := none }
    ⟨by decide, by decide⟩ (denseList_of_perm _ _ (by decide)) (by decide)
  exact h3.1 (by decide)

theorem dedupFind_mem (s : Store) (pn : String) (pu : Option String)
    (p : PreferredProduct) (h : dedupFind s pn pu = some p) : p ∈ s.rows := by
  unfold dedupFind findByUrl findByName at h
  cases pu with
  | none => exact List.mem_of_find?_eq_some h
  | some u =>
      dsimp only at h
      cases h2 : s.rows.find? (fun q => q.product_url = some u) with
      | some q =>
          rw [h2] at h
          dsimp only at h
          simp only [Option.some_inj] at h
          subst h
          exact List.mem_of_find?_eq_some h2
      | none =>
          rw [h2] at h
          dsimp only at h
          exact List.mem_of_find?_eq_some h

theorem insert_at_rank_preserves (s : Store) (product_name : String)
    (product_url brand image_url : Option String) (r : Int)
    (hnd : (pidsOf s.rows).Nodup) (hbound : ∀ p ∈ s.rows, p.pid < s.nextId)
    (hd : Dense s) (h1 : 1 ≤ r) (h2 : r ≤ (s.rows.length : Int) + 1) :
    WF ⟨(s.rows.map (fun q => if r ≤ q.rank then { q with rank := q.rank + 1 }
          else q))
          ++ [{ pid := s.nextId, rank := r, product_name := product_name,
                product_url := product_url, brand := brand,
                image_url := image_url }],
        s.nextId + 1⟩ ∧
    Dense ⟨(s.rows.map (fun q => if r ≤ q.rank then { q with rank := q.rank + 1 }
          else q))
          ++ [{ pid := s.nextId, rank := r, product_name := product_name,
                product_url := product_url, brand := brand,
                image_url := image_url }],
        s.nextId + 1⟩ := by
  have hpid_eq : ∀ q : PreferredProduct,
      ((if r ≤ q.rank then { q with rank := q.rank + 1 } else q) :
        PreferredProduct).pid = q.pid := by
    intro q; by_cases h : r ≤ q.rank <;> simp [h]
  have hfresh : s.nextId ∉ s.rows.map (fun p => p.pid) := by
    intro hmem
    obtain ⟨q, hq, hqe⟩ := List.mem_map.mp hmem
    have := hbound q hq
    omega
  constructor
  · constructor
    · unfold pidsOf
      rw [List.map_append]
      have e1 : (s.rows.map (fun q =>
          if r ≤ q.rank then { q with rank := q.rank + 1 } else q)).map
            (fun p => p.pid) = s.rows.map (fun p => p.pid) := by
        have := pids_map_preserve s.rows
          (fun q => if r ≤ q.rank then { q with rank := q.rank + 1 } else q)
          hpid_eq
        simpa [pidsOf] using this
      rw [e1]
      simp only [List.map_cons, List.map_nil]
      rw [List.nodup_append]
      refine ⟨by simpa [pidsOf] using hnd, by simp, ?_⟩
      intro x hx
      simp only [List.mem_singleton]
      intro he
      rw [he] at hx
      exact hfresh hx
    · intro q hq
      rcases List.mem_append.mp hq with h | h
      · obtain ⟨q0, hq0, hq0e⟩ := List.mem_map.mp h
        have hpe : q.pid = q0.pid := by rw [← hq0e]; exact hpid_eq q0
        have := hbound q0 hq0
        dsimp only
        omega
      · simp only [List.mem_singleton] at h
        subst h
        dsimp only
        omega
  · unfold Dense ranks
    dsimp only
    rw [List.map_append, List.length_append, List.length_map]
    simp only [List.map_cons, List.map_nil, List.length_cons, List.length_nil]
    rw [ranks_shift_rows]
    exact denseList_shift_insert _ _ r hd h1 h2

theorem add_preserves (s : Store) (product_name : String)
    (product_url brand image_url : Option String) (rank? : Option Int)
    (hwf : WF s) (hd : Dense s)
    (hok : OpOk s (.add product_name product_url brand image_url rank?)) :
    WF (add_preferred_product s product_name product_url brand image_url rank?) ∧
    Dense (add_preferred_product s product_name product_url brand image_url
      rank?) := by
  obtain ⟨hnd, hbound⟩ := hwf
  unfold add_preferred_product
  cases hdf : dedupFind s product_name product_url with
  | some e =>
      dsimp only
      have hrank_eq : ∀ q : PreferredProduct,
          ((if q.pid = e.pid then
              updateFields q product_name product_url brand image_url
            else q) : PreferredProduct).rank = q.rank := by
        intro q; by_cases h : q.pid = e.pid <;> simp [h, updateFields]
      have hpid_eq : ∀ q : PreferredProduct,
          ((if q.pid = e.pid then
              updateFields q product_name product_url brand image_url
            else q) : PreferredProduct).pid = q.pid := by
        intro q; by_cases h : q.pid = e.pid <;> simp [h, updateFields]
      constructor
      · constructor
        · rw [pids_map_preserve _ _ hpid_eq]
          exact hnd
        · intro q hq
          obtain ⟨q0, hq0, hq0e⟩ := List.mem_map.mp hq
          have hpe : q.pid = q0.pid := by rw [← hq0e]; exact hpid_eq q0
          have := hbound q0 hq0
          dsimp only
          omega
      · unfold Dense ranks
        dsimp only
        rw [List.length_map, ranks_map_preserve _ _ hrank_eq]
        exact hd
  | none =>
      cases rank? with
      | some r =>
          have hb2 : 1 ≤ r ∧ r ≤ (s.rows.length : Int) + 1 := by
            rcases hok with h | h
            · rw [hdf] at h; simp at h
            · exact h
          dsimp only
          exact insert_at_rank_preserves s product_name product_url brand
            image_url r hnd hbound hd hb2.1 hb2.2
      | none =>
          cases hmr : maxRank s.rows with
          | none =>
              have he : s.rows = [] := (maxRank_eq_none_iff _).mp hmr
              dsimp only
              refine insert_at_rank_preserves s product_name product_url brand
                image_url 1 hnd hbound hd (by omega) (by rw [he]; simp)
          | some m =>
              have hne : s.rows ≠ [] := by
                intro he
                rw [he] at hmr
                simp [maxRank] at hmr
              have hmn := maxRank_dense s hd hne
              rw [hmn] at hmr
              simp only [Option.some_inj] at hmr
              dsimp only
              refine insert_at_rank_preserves s product_name product_url brand
                image_url (m + 1) hnd hbound hd (by omega) (by omega)

theorem insertByRank_perm (p : PreferredProduct) (l : List PreferredProduct) :
    (insertByRank p l).Perm (p :: l) := by
  induction l with
  | nil => exact List.Perm.refl _
  | cons q t ih =>
      unfold insertByRank
      by_cases h : p.rank ≤ q.rank
      · rw [if_pos h]
      · rw [if_neg h]
        exact (ih.cons q).trans (List.Perm.swap p q t)

theorem sortByRank_perm (l : List PreferredProduct) : (sortByRank l).Perm l := by
  induction l with
  | nil => exact List.Perm.refl _
  | cons p t ih =>
      unfold sortByRank
      exact (insertByRank_perm p (sortByRank t)).trans (ih.cons p)

theorem ranks_renumberFrom (i : Int) (l : List PreferredProduct) :
    (renumberFrom i l).map (fun p => p.rank) = rangeInt i l.length := by
  induction l generalizing i with
  | nil => rfl
  | cons p t ih => simp [renumberFrom, rangeInt, ih]

theorem pids_renumberFrom (i : Int) (l : List PreferredProduct) :
    pidsOf (renumberFrom i l) = pidsOf l := by
  unfold pidsOf
  induction l generalizing i with
  | nil => rfl
  | cons p t ih => simp [renumberFrom, ih]

theorem length_renumberFrom (i : Int) (l : List PreferredProduct) :
    (renumberFrom i l).length = l.length := by
  induction l generalizing i with
  | nil => rfl
  | cons p t ih => simp [renumberFrom, ih]

theorem delete_preserves (s : Store) (pid : Nat) (hwf : WF s) (hd : Dense s) :
    WF (delete_product s pid) ∧ Dense (delete_product s pid) := by
  obtain ⟨hnd, hbound⟩ := hwf
  unfold delete_product
  by_cases h : s.rows.any (fun p => p.pid = pid)
  · rw [if_pos h]
    have hperm : (pidsOf (sortByRank (s.rows.filter (fun p => ¬ p.pid = pid)))).Perm
        (pidsOf (s.rows.filter (fun p => ¬ p.pid = pid))) := by
      unfold pidsOf
      exact (sortByRank_perm _).map _
    have hsub : (pidsOf (s.rows.filter (fun p => ¬ p.pid = pid))).Sublist
        (pidsOf s.rows) := by
      unfold pidsOf
      exact (List.filter_sublist _).map _
    constructor
    · constructor
      · rw [pids_renumberFrom]
        exact hperm.nodup_iff.mpr (hsub.nodup hnd)
      · intro q hq
        dsimp only at hq ⊢
        have hqpid : q.pid ∈ pidsOf (renumberFrom 1
            (sortByRank (s.rows.filter (fun p => ¬ p.pid = pid)))) := by
          unfold pidsOf
          exact List.mem_map_of_mem _ hq
        rw [pids_renumberFrom] at hqpid
        have hqpid2 := hperm.mem_iff.mp hqpid
        have hqpid3 := hsub.mem hqpid2
        obtain ⟨q0, hq0, hq0e⟩ := List.mem_map.mp hqpid3
        have := hbound q0 hq0
        omega
    · unfold Dense ranks
      dsimp only
      rw [ranks_renumberFrom, length_renumberFrom]
      intro k
      rw [count_rangeInt]
      split_ifs <;> omega
  · rw [if_neg h]
    exact ⟨⟨hnd, hbound⟩, hd⟩

theorem ranks_shiftlt_rows (rows : List PreferredProduct) (R : Int) :
    (rows.map (fun q => if q.rank < R then { q with rank := q.rank + 1 }
        else q)).map (fun p => p.rank)
      = (rows.map (fun p => p.rank)).map (fun t => if t < R then t + 1 else t) := by
  induction rows with
  | nil => rfl
  | cons q t ih =>
      simp only [List.map_cons, ih]
      congr 1
      by_cases h : q.rank < R <;> simp [h]

theorem count_ranks_maketop (rows : List PreferredProduct) (x : PreferredProduct)
    (hx : x ∈ rows) (hnd : (pidsOf rows).Nodup) (pid0 : Nat) (R : Int)
    (hxpid : x.pid = pid0) (hxR : x.rank = R) (k : Int) :
    ((rows.map (fun q => if q.pid = pid0 then { q with rank := 1 }
        else if q.rank < R then { q with rank := q.rank + 1 } else q)).map
          (fun p => p.rank)).count k
      = ((((rows.map (fun p => p.rank)).map
            (fun t => if t < R then t + 1 else t)).count k
          - (if R = k then 1 else 0)) + (if (1 : Int) = k then 1 else 0)) := by
  induction rows with
  | nil => cases hx
  | cons q t ih =>
      simp only [pidsOf, List.map_cons, List.nodup_cons] at hnd
      obtain ⟨hq_not, hnd_t⟩ := hnd
      have hnd2 : (pidsOf t).Nodup := by simpa [pidsOf] using hnd_t
      by_cases hcase : q.pid = pid0
      · have hxq : x = q := by
          rcases List.mem_cons.mp hx with h | h
          · exact h
          · exfalso
            apply hq_not
            rw [hcase, ← hxpid]
            exact List.mem_map_of_mem _ h
        subst hxq
        have htail : t.map (fun q2 => if q2.pid = pid0 then { q2 with rank := 1 }
            else if q2.rank < R then { q2 with rank := q2.rank + 1 } else q2)
            = t.map (fun q2 =>
                if q2.rank < R then { q2 with rank := q2.rank + 1 } else q2) := by
          apply List.map_congr_left
          intro q2 hq2
          rw [if_neg]
          intro he
          apply hq_not
          rw [hcase, ← he]
          exact List.mem_map_of_mem _ hq2
        simp only [List.map_cons, if_pos hcase, htail, List.count_cons, beq_iff_eq]
        rw [ranks_shiftlt_rows]
        have hgx : ((if x.rank < R then x.rank + 1 else x.rank) : Int) = R := by
          rw [hxR]; simp
        rw [hgx]
        split_ifs <;> omega
      · have hxt : x ∈ t := by
          rcases List.mem_cons.mp hx with h | h
          · exact absurd (by rw [← h]; exact hxpid) hcase
          · exact h
        have iht := ih hxt hnd2
        have hge : (if R = k then 1 else 0)
            ≤ ((t.map (fun p => p.rank)).map
                (fun t2 => if t2 < R then t2 + 1 else t2)).count k := by
          split_ifs with h
          · apply List.count_pos_iff.mpr
            have h1 : x.rank ∈ t.map (fun p => p.rank) := List.mem_map_of_mem _ hxt
            have h2 := List.mem_map_of_mem (fun t2 => if t2 < R then t2 + 1 else t2) h1
            rw [hxR] at h2
            simpa [h] using h2
          · exact Nat.zero_le _
        by_cases hq2 : q.rank < R
        · simp only [List.map_cons, if_neg hcase, if_pos hq2, List.count_cons,
            beq_iff_eq] at iht ⊢
          omega
        · simp only [List.map_cons, if_neg hcase, if_neg hq2, List.count_cons,
            beq_iff_eq] at iht ⊢
          omega

theorem maketop_shift_preserves (rows : List PreferredProduct) (nid : Nat)
    (pid0 : Nat) (R : Int) (x : PreferredProduct) (hx : x ∈ rows)
    (hxpid : x.pid = pid0) (hxR : x.rank = R)
    (hnd : (pidsOf rows).Nodup) (hbound : ∀ p ∈ rows, p.pid < nid)
    (hdl : DenseList (rows.map (fun p => p.rank)) rows.length)
    (_hR : ¬ R = 1) :
    WF ⟨rows.map (fun q => if q.pid = pid0 then { q with rank := 1 }
          else if q.rank < R then { q with rank := q.rank + 1 } else q), nid⟩ ∧
    Dense ⟨rows.map (fun q => if q.pid = pid0 then { q with rank := 1 }
          else if q.rank < R then { q with rank := q.rank + 1 } else q), nid⟩ := by
  have hpid_eq : ∀ q : PreferredProduct,
      ((if q.pid = pid0 then { q with rank := 1 }
        else if q.rank < R then { q with rank := q.rank + 1 } else q) :
          PreferredProduct).pid = q.pid := by
    intro q
    by_cases h : q.pid = pid0
    · simp [h]
    · by_cases h2 : q.rank < R <;> simp [h, h2]
  have hRb : 1 ≤ R ∧ R ≤ (rows.length : Int) := by
    have h1 : x.rank ∈ rows.map (fun p => p.rank) := List.mem_map_of_mem _ hx
    have h2 : 0 < (rows.map (fun p => p.rank)).count x.rank :=
      List.count_pos_iff.mpr h1
    have h3 := hdl x.rank
    rw [hxR] at h3 h2
    split_ifs at h3 with h4
    · exact h4
    · omega
  constructor
  · constructor
    · dsimp only
      rw [pids_map_preserve _ _ hpid_eq]
      exact hnd
    · intro q hq
      dsimp only at hq ⊢
      obtain ⟨q0, hq0, hq0e⟩ := List.mem_map.mp hq
      have hpe : q.pid = q0.pid := by rw [← hq0e]; exact hpid_eq q0
      have := hbound q0 hq0
      omega
  · unfold Dense ranks
    dsimp only
    rw [List.length_map]
    intro k
    rw [count_ranks_maketop rows x hx hnd pid0 R hxpid hxR k, count_map_shift_lt]
    have e0 := hdl k
    have e1 := hdl (k - 1)
    split_ifs at * <;> omega

theorem maketop_preserves (s : Store) (product_name : String)
    (product_url brand image_url : Option String) (hwf : WF s) (hd : Dense s) :
    WF (make_product_top_choice s product_name product_url brand image_url) ∧
    Dense (make_product_top_choice s product_name product_url brand image_url) := by
  obtain ⟨hnd, hbound⟩ := hwf
  unfold make_product_top_choice
  cases hdf : dedupFind s product_name product_url with
  | none =>
      dsimp only
      exact add_preserves s product_name product_url brand image_url (some 1)
        ⟨hnd, hbound⟩ hd (Or.inr ⟨by omega, by omega⟩)
  | some e =>
      have hemem := dedupFind_mem s product_name product_url e hdf
      dsimp only
      have hrank_eq : ∀ q : PreferredProduct,
          ((if q.pid = e.pid then
              updateFields q product_name product_url brand image_url
            else q) : PreferredProduct).rank = q.rank := by
        intro q; by_cases h : q.pid = e.pid <;> simp [h, updateFields]
      have hpid_eq : ∀ q : PreferredProduct,
          ((if q.pid = e.pid then
              updateFields q product_name product_url brand image_url
            else q) : PreferredProduct).pid = q.pid := by
        intro q; by_cases h : q.pid = e.pid <;> simp [h, updateFields]
      have hndu : (pidsOf (s.rows.map (fun q => if q.pid = e.pid then
          updateFields q product_name product_url brand image_url else q))).Nodup := by
        rw [pids_map_preserve _ _ hpid_eq]
        exact hnd
      have hboundu : ∀ p ∈ (s.rows.map (fun q => if q.pid = e.pid then
          updateFields q product_name product_url brand image_url else q)),
          p.pid < s.nextId := by
        intro q hq
        obtain ⟨q0, hq0, hq0e⟩ := List.mem_map.mp hq
        have hpe : q.pid = q0.pid := by rw [← hq0e]; exact hpid_eq q0
        have := hbound q0 hq0
        omega
      have hdlu : DenseList ((s.rows.map (fun q => if q.pid = e.pid then
            updateFields q product_name product_url brand image_url else q)).map
              (fun p => p.rank))
          (s.rows.map (fun q => if q.pid = e.pid then
            updateFields q product_name product_url brand image_url else q)).length := by
        rw [ranks_map_preserve _ _ hrank_eq, List.length_map]
        exact hd
      by_cases h1 : e.rank = 1
      · rw [if_pos h1]
        exact ⟨⟨hndu, hboundu⟩, hdlu⟩
      · rw [if_neg h1]
        have hxmem : (updateFields e product_name product_url brand image_url)
            ∈ s.rows.map (fun q => if q.pid = e.pid then
                updateFields q product_name product_url brand image_url else q) := by
          have h2 : (if e.pid = e.pid then
              updateFields e product_name product_url brand image_url else e)
              ∈ s.rows.map (fun q => if q.pid = e.pid then
                  updateFields q product_name product_url brand image_url else q) :=
            List.mem_map_of_mem _ hemem
          rwa [if_pos rfl] at h2
        exact maketop_shift_preserves _ s.nextId e.pid e.rank
          (updateFields e product_name product_url brand image_url)
          hxmem rfl rfl hndu hboundu hdlu h1

theorem promote_preserves (s : Store) (pid : Nat) (hwf : WF s) (hd : Dense s) :
    WF (promote_product s pid) ∧ Dense (promote_product s pid) := by
  cases hp : s.rows.find? (fun q => q.pid = pid) with
  | none =>
      have h2 : promote_product s pid = s := by
        unfold promote_product promoteStates
        rw [hp]
        rfl
      rw [h2]
      exact ⟨hwf, hd⟩
  | some p =>
      by_cases h1 : p.rank ≤ 1
      · have h2 : promote_product s pid = s := by
          unfold promote_product promoteStates
          rw [hp]
          dsimp only
          rw [if_pos h1]
          rfl
        rw [h2]
        exact ⟨hwf, hd⟩
      · obtain ⟨a, hfa, hamem, har, hapid, hcount, hnodup, hpids, hlen, hnext,
          hpmem, hamem2, hothers⟩ := promote_core s pid p hwf hd hp (by omega)
        constructor
        · constructor
          · rw [hpids]
            exact hwf.1
          · intro q hq
            have hq2 : q.pid ∈ pidsOf (promote_product s pid).rows :=
              List.mem_map_of_mem _ hq
            rw [hpids] at hq2
            obtain ⟨q0, hq0, hq0e⟩ := List.mem_map.mp hq2
            have := hwf.2 q0 hq0
            rw [hnext]
            omega
        · unfold Dense
          rw [hlen]
          intro k
          rw [hcount k]
          exact hd k

theorem applyOp_preserves (s : Store) (op : MatcherOp) (hwf : WF s)
    (hd : Dense s) (hok : OpOk s op) :
    WF (applyOp s op) ∧ Dense (applyOp s op) := by
  cases op with
  | add n u b i r => exact add_preserves s n u b i r hwf hd hok
  | del pid => exact delete_preserves s pid hwf hd
  | promote pid => exact promote_preserves s pid hwf hd
  | makeTop n u b i => exact maketop_preserves s n u b i hwf hd

/-- C1 (amended): starting from dense ranks and a well-formed table (unique
primary keys), any sequence of add_preferred_product / delete-product /
promote_product / make_product_top_choice operations keeps the set of an
item's PreferredProduct ranks exactly 1..n — provided every explicitly
specified rank of an add that creates a new row lies within 1..n+1 (which the
repository's own callers, passing rank=1 or no rank, always satisfy). -/
theorem C1_rank_density_invariant (s : Store) (ops : List MatcherOp)
    (hwf : WF s) (hd : Dense s) (hok : OpsOk s ops) :
    WF (applyOps s ops) ∧ Dense (applyOps s ops) := by
  induction ops generalizing s with
  | nil => exact ⟨hwf, hd⟩
  | cons op rest ih =>
      obtain ⟨h1, h2⟩ := hok
      obtain ⟨hw2, hd2⟩ := applyOp_preserves s op hwf hd h1
      exact ih (applyOp s op) hw2 hd2 h2

/-- Witness for C1 at a concrete run: add two products, make the second the
top choice, promote, and delete — the surviving ranks are again exactly 1..n. -/
theorem C1_rank_density_invariant_witness :
    Dense (applyOps emptyStore
      [MatcherOp.add "a" none none none none,
       MatcherOp.add "b" none none none (some 1),
       MatcherOp.makeTop "b" none none none,
       MatcherOp.promote 1,
       MatcherOp.del 2]) := by
  have h := C1_rank_density_invariant emptyStore
    [MatcherOp.add "a" none none none none,
     MatcherOp.add "b" none none none (some 1),
     MatcherOp.makeTop "b" none none none,
     MatcherOp.promote 1,
     MatcherOp.del 2]
    ⟨by decide, by decide⟩
    (denseList_of_perm _ _ (by decide))
    ⟨trivial, Or.inr ⟨by decide, by decide⟩, trivial, trivial, trivial, trivial⟩
  exact h.2

/-- C1 counterexample to the claim as stated: a single add_preferred_product
with the out-of-range explicit rank 5 on an empty (hence trivially dense)
item leaves the rank set {5}, not {1} — the operations do NOT preserve
density for arbitrary explicit ranks. -/
theorem C1_counterexample :
    WF emptyStore ∧ Dense emptyStore ∧
    ¬ Dense (applyOps emptyStore [MatcherOp.add "x" none none none (some 5)]) := by
  refine ⟨⟨by decide, by decide⟩, ?_, ?_⟩
  · intro k
    simp only [emptyStore, ranks, List.map_nil, List.count_nil, List.length_nil]
    split_ifs <;> omega
  · intro hD
    exact absurd (hD 5) (by decide)

/-- C6: add_preferred_product deduplicates and ranks as claimed: a call whose
URL matches an existing row of the item (or whose name matches when no URL
does) updates that row in place — same row count, same ids, same ranks,
fields refreshed — and creates no second row; a new product with no explicit
rank is appended at max(existing rank)+1 (1 when the item has none) with
every other row untouched; a new product with an explicit rank r is inserted
at rank r after every existing row with rank >= r is shifted down by one. -/
theorem C6_add_dedup_and_shift (s : Store) (product_name : String)
    (product_url brand image_url : Option String) :
    (∀ (p : PreferredProduct) (rank? : Option Int),
      dedupFind s product_name product_url = some p →
      (add_preferred_product s product_name product_url brand image_url
          rank?).rows.length = s.rows.length ∧
      (add_preferred_product s product_name product_url brand image_url
          rank?).nextId = s.nextId ∧
      ranks (add_preferred_product s product_name product_url brand image_url
          rank?) = ranks s ∧
      updateFields p product_name product_url brand image_url
        ∈ (add_preferred_product s product_name product_url brand image_url
            rank?).rows ∧
      (updateFields p product_name product_url brand image_url).product_name
        = product_name ∧
      (updateFields p product_name product_url brand image_url).rank = p.rank ∧
      (updateFields p product_name product_url brand image_url).pid = p.pid ∧
      (∀ u, product_url = some u →
        (updateFields p product_name product_url brand image_url).product_url
          = some u)) ∧
    (dedupFind s product_name product_url = none →
      ∃ newp, (add_preferred_product s product_name product_url brand image_url
          none).rows = s.rows ++ [newp] ∧
        newp.pid = s.nextId ∧ newp.product_name = product_name ∧
        newp.rank = (match maxRank s.rows with | none => 1 | some m => m + 1)) ∧
    (∀ r : Int, dedupFind s product_name product_url = none →
      ∃ newp, newp ∈ (add_preferred_product s product_name product_url brand
          image_url (some r)).rows ∧
        newp.pid = s.nextId ∧ newp.rank = r ∧ newp.product_name = product_name ∧
        (add_preferred_product s product_name product_url brand image_url
            (some r)).rows.length = s.rows.length + 1 ∧
        (∀ q ∈ s.rows, r ≤ q.rank →
          ({ q with rank := q.rank + 1 } : PreferredProduct)
            ∈ (add_preferred_product s product_name product_url brand image_url
                (some r)).rows) ∧
        (∀ q ∈ s.rows, q.rank < r →
          q ∈ (add_preferred_product s product_name product_url brand image_url
              (some r)).rows)) := by
  refine ⟨?_, ?_, ?_⟩
  · intro p rank? hdf
    have hpmem := dedupFind_mem s product_name product_url p hdf
    unfold add_preferred_product
    rw [hdf]
    dsimp only
    refine ⟨by simp, rfl, ?_, ?_, rfl, rfl, rfl, ?_⟩
    · unfold ranks
      dsimp only
      exact ranks_map_preserve _ _
        (fun q => by by_cases h : q.pid = p.pid <;> simp [h, updateFields])
    · have h2 : (if p.pid = p.pid then
          updateFields p product_name product_url brand image_url else p)
          ∈ s.rows.map (fun q => if q.pid = p.pid then
              updateFields q product_name product_url brand image_url else q) :=
        List.mem_map_of_mem _ hpmem
      rwa [if_pos rfl] at h2
    · intro u hu
      subst hu
      rfl
  · intro hdf
    unfold add_preferred_product
    rw [hdf]
    dsimp only
    refine ⟨{ pid := s.nextId,
              rank := (match maxRank s.rows with | none => 1 | some m => m + 1),
              product_name := product_name, product_url := product_url,
              brand := brand, image_url := image_url }, ?_, rfl, rfl, rfl⟩
    have hshift : s.rows.map (fun q =>
        if (match maxRank s.rows with | none => 1 | some m => m + 1) ≤ q.rank
        then { q with rank := q.rank + 1 } else q) = s.rows := by
      cases hmr : maxRank s.rows with
      | none =>
          have he : s.rows = [] := (maxRank_eq_none_iff _).mp hmr
          rw [he]
          rfl
      | some m =>
          have h3 : ∀ q ∈ s.rows,
              (if m + 1 ≤ q.rank then { q with rank := q.rank + 1 } else q) = q := by
            intro q hq
            rw [if_neg]
            have := (maxRank_spec _ _ hmr).2 q hq
            omega
          calc s.rows.map (fun q =>
                if m + 1 ≤ q.rank then { q with rank := q.rank + 1 } else q)
              = s.rows.map (fun q => q) := List.map_congr_left h3
            _ = s.rows := List.map_id' s.rows
    rw [hshift]
  · intro r hdf
    unfold add_preferred_product
    rw [hdf]
    dsimp only
    refine ⟨{ pid := s.nextId, rank := r, product_name := product_name,
              product_url := product_url, brand := brand,
              image_url := image_url }, ?_, rfl, rfl, rfl, by simp, ?_, ?_⟩
    · exact List.mem_append_right _ (by simp)
    · intro q hq hle
      apply List.mem_append_left
      have h2 : (if r ≤ q.rank then { q with rank := q.rank + 1 } else q)
          ∈ s.rows.map (fun q2 =>
              if r ≤ q2.rank then { q2 with rank := q2.rank + 1 } else q2) :=
        List.mem_map_of_mem _ hq
      rwa [if_pos hle] at h2
    · intro q hq hlt
      apply List.mem_append_left
      have h2 : (if r ≤ q.rank then { q with rank := q.rank + 1 } else q)
          ∈ s.rows.map (fun q2 =>
              if r ≤ q2.rank then { q2 with rank := q2.rank + 1 } else q2) :=
        List.mem_map_of_mem _ hq
      rwa [if_neg (by omega)] at h2

/-- Witness for C6 at the two-row store: re-adding the rank-1 product by URL
keeps two rows; adding a new product with no rank appends it at rank 3; and
adding a new product at rank 1 shifts the old rank-1 row down to rank 2. -/
theorem C6_add_dedup_and_shift_witness :
    (add_preferred_product exampleTwoRowStore "Brand X Milk 2"
        (some "instacart.example/brand-x-milk") none none none).rows.length
      = exampleTwoRowStore.rows.length ∧
    (∃ newp, (add_preferred_product exampleTwoRowStore "Oat Milk" none none none
        none).rows = exampleTwoRowStore.rows ++ [newp] ∧ newp.rank = 3) ∧
    (∃ p, p ∈ (add_preferred_product exampleTwoRowStore "Goat Milk" none none
        none (some 1)).rows ∧ p.pid = 1 ∧ p.rank = 2) := by
  refine ⟨?_, ?_, ?_⟩
  · exact ((C6_add_dedup_and_shift exampleTwoRowStore "Brand X Milk 2"
      (some "instacart.example/brand-x-milk") none none).1
      { pid := 1, rank := 1, product_name := "Brand X Milk",
        product_url := some "instacart.example/brand-x-milk", brand := none,
        image_url := none }
      none (by decide)).1
  · obtain ⟨newp, h1, _, _, h4⟩ := (C6_add_dedup_and_shift exampleTwoRowStore
      "Oat Milk" none none none).2.1 (by decide)
    refine ⟨newp, h1, ?_⟩
    rw [h4]
    decide
  · obtain ⟨newp, _, _, _, _, _, hshift, _⟩ := (C6_add_dedup_and_shift
      exampleTwoRowStore "Goat Milk" none none none).2.2 1 (by decide)
    have h2 := hshift
      { pid := 1, rank := 1, product_name := "Brand X Milk",
        product_url := some "instacart.example/brand-x-milk", brand := none,
        image_url := none } (by decide) (by decide)
    exact ⟨_, h2, by decide, by decide⟩

end Alexacart
